import Mathlib

/-!
# CHIP-8 interpreter: a shallow embedding of `Chip8.cpp`

The machine state of `class Chip8` becomes a structure whose arrays are total
functions on `Nat`; every array access goes through a bounds check, so that an
access outside the C++ array (undefined behaviour in the source) shows up as an
explicit `Fault`.  Machine integers are natural numbers, reduced `% 2^w` wherever
the C++ arithmetic can leave the range of its type.
-/

/-! ## Constants of `Chip8.hpp` and `Chip8.cpp` -/

abbrev VIDEO_WIDTH : Nat := 64
abbrev VIDEO_HEIGHT : Nat := 32
abbrev KEY_COUNT : Nat := 16
abbrev MEMORY_SIZE : Nat := 4096
abbrev REGISTER_COUNT : Nat := 16
abbrev STACK_LEVELS : Nat := 16

abbrev START_ADDRESS : Nat := 0x200
abbrev FONT_START_ADDRESS : Nat := 0x50
abbrev FONTSET_SIZE : Nat := 80

/-- The sixteen 5-byte glyphs `fontset[FONTSET_SIZE]`. -/
def fontset : List Nat :=
  [0xF0, 0x90, 0x90, 0x90, 0xF0,
   0x20, 0x60, 0x20, 0x20, 0x70,
   0xF0, 0x10, 0xF0, 0x80, 0xF0,
   0xF0, 0x10, 0xF0, 0x10, 0xF0,
   0x90, 0x90, 0xF0, 0x10, 0x10,
   0xF0, 0x80, 0xF0, 0x10, 0xF0,
   0xF0, 0x80, 0xF0, 0x90, 0xF0,
   0xF0, 0x10, 0x20, 0x40, 0x40,
   0xF0, 0x90, 0xF0, 0x90, 0xF0,
   0xF0, 0x90, 0xF0, 0x10, 0xF0,
   0xF0, 0x90, 0xF0, 0x90, 0x90,
   0xE0, 0x90, 0xE0, 0x90, 0xE0,
   0xF0, 0x80, 0x80, 0x80, 0xF0,
   0xE0, 0x90, 0x90, 0x90, 0xE0,
   0xF0, 0x80, 0xF0, 0x80, 0xF0,
   0xF0, 0x80, 0xF0, 0x80, 0x80]

/-- What stops a handler or a cycle: an array access outside the array (undefined
behaviour in the C++ source), or a call through an empty `std::function` taken
from one of the secondary dispatch maps (`std::bad_function_call`). -/
inductive Fault where
  | memoryOutOfBounds (address : Nat)
  | stackOutOfBounds (slot : Nat)
  | videoOutOfBounds (pos : Nat)
  | keypadOutOfBounds (key : Nat)
  | badFunctionCall (opcode : Nat)
  deriving DecidableEq, Repr

/-- The data members of `class Chip8`.  `video` holds `uint32_t` cells, `index`, `pc`,
`opcode` and `stack` hold `uint16_t`, the remaining scalars and arrays hold `uint8_t`.
`randGen` stands for the random engine together with `randByte`: the stream of bytes
that the successive calls `randByte(randGen)` will return. -/
structure Chip8 where
  video : Nat → Nat
  index : Nat
  pc : Nat
  opcode : Nat
  stack : Nat → Nat
  sp : Nat
  delayTimer : Nat
  soundTimer : Nat
  registers : Nat → Nat
  memory : Nat → Nat
  keypad : Nat → Nat
  randGen : Nat → Nat

/-- A `for (int i = 0; i < n; ++i) body` loop over a state, stopping at the first
fault: the bodies run for `i = 0, 1, …, n - 1` in this order. -/
def forLoop {σ : Type} : Nat → (Nat → σ → Except Fault σ) → σ → Except Fault σ
  | 0, _, s => .ok s
  | n + 1, body, s =>
    match forLoop n body s with
    | .ok s' => body n s'
    | .error e => .error e

namespace Chip8

/-- The constructor `Chip8::Chip8()`: `pc` is set to `START_ADDRESS`, the font set is
copied to `memory[FONT_START_ADDRESS ..]`, and the arrays with a `{}` initialiser are
zeroed.  The members `index`, `opcode`, `sp`, `delayTimer` and `soundTimer` get no
initial value in the source, so they are parameters here, as is the random stream. -/
def new (index opcode sp delayTimer soundTimer : Nat) (randGen : Nat → Nat) : Chip8 :=
  { video := fun _ => 0
    index := index
    pc := START_ADDRESS
    opcode := opcode
    stack := fun _ => 0
    sp := sp
    delayTimer := delayTimer
    soundTimer := soundTimer
    registers := fun _ => 0
    memory := fun a =>
      if FONT_START_ADDRESS ≤ a ∧ a < FONT_START_ADDRESS + FONTSET_SIZE then
        fontset.getD (a - FONT_START_ADDRESS) 0
      else 0
    keypad := fun _ => 0
    randGen := randGen }

/-! ### Checked array accesses -/

/-- Read `memory[a]`. -/
def readMemory (s : Chip8) (a : Nat) : Except Fault Nat :=
  if a < MEMORY_SIZE then .ok (s.memory a) else .error (.memoryOutOfBounds a)

/-- Write `memory[a] = v`. -/
def writeMemory (s : Chip8) (a v : Nat) : Except Fault Chip8 :=
  if a < MEMORY_SIZE then .ok { s with memory := Function.update s.memory a v }
  else .error (.memoryOutOfBounds a)

/-- Read `stack[i]`. -/
def readStack (s : Chip8) (i : Nat) : Except Fault Nat :=
  if i < STACK_LEVELS then .ok (s.stack i) else .error (.stackOutOfBounds i)

/-- Write `stack[i] = v`. -/
def writeStack (s : Chip8) (i v : Nat) : Except Fault Chip8 :=
  if i < STACK_LEVELS then .ok { s with stack := Function.update s.stack i v }
  else .error (.stackOutOfBounds i)

/-- Read `keypad[k]`. -/
def readKeypad (s : Chip8) (k : Nat) : Except Fault Nat :=
  if k < KEY_COUNT then .ok (s.keypad k) else .error (.keypadOutOfBounds k)

/-- Write `registers[i] = v`; the handlers only index `registers` with a nibble of the
opcode or with a constant below 16, so this access is always inside the array. -/
def setRegister (s : Chip8) (i v : Nat) : Chip8 :=
  { s with registers := Function.update s.registers i v }

/-! ### Operand fields of the opcode -/

/-- The local `uint8_t Vx = (opcode & 0x0F00u) >> 8u`. -/
def Vx (s : Chip8) : Nat := ((s.opcode &&& 0x0F00) >>> 8) % 256

/-- The local `uint8_t Vy = (opcode & 0x00F0u) >> 4u`. -/
def Vy (s : Chip8) : Nat := ((s.opcode &&& 0x00F0) >>> 4) % 256

/-- The local `uint8_t byte = opcode & 0x00FFu`. -/
def byte (s : Chip8) : Nat := (s.opcode &&& 0x00FF) % 256

/-- The address field `opcode & 0x0FFFu`, as a `uint16_t`. -/
def nnn (s : Chip8) : Nat := (s.opcode &&& 0x0FFF) % 65536

/-! ### The instruction handlers -/

/-- CLS: `std::memset(video, 0, sizeof(video))`. -/
def op_00E0 (s : Chip8) : Chip8 :=
  { s with video := fun _ => 0 }

/-- RET: `--sp; pc = stack[sp];`. -/
def op_00EE (s : Chip8) : Except Fault Chip8 :=
  let s1 := { s with sp := (s.sp + 255) % 256 }
  match readStack s1 s1.sp with
  | .ok v => .ok { s1 with pc := v }
  | .error e => .error e

/-- JP nnn: `pc = opcode & 0x0FFFu`. -/
def op_1nnn (s : Chip8) : Chip8 :=
  { s with pc := nnn s }

/-- CALL nnn: `adress = opcode & 0x0FFFu; stack[sp] = pc; ++sp; pc = adress;`. -/
def op_2nnn (s : Chip8) : Except Fault Chip8 :=
  let adress := nnn s
  match writeStack s s.sp s.pc with
  | .ok s1 => .ok { s1 with sp := (s1.sp + 1) % 256, pc := adress }
  | .error e => .error e

/-- SE Vx, kk: `if(registers[Vx] == byte) pc += 2;`. -/
def op_3xkk (s : Chip8) : Chip8 :=
  if s.registers (Vx s) = byte s then { s with pc := (s.pc + 2) % 65536 } else s

/-- SNE Vx, kk: `if(registers[Vx] != byte) pc += 2;`. -/
def op_4xkk (s : Chip8) : Chip8 :=
  if s.registers (Vx s) ≠ byte s then { s with pc := (s.pc + 2) % 65536 } else s

/-- SE Vx, Vy: `if(registers[Vx] == registers[Vy]) pc += 2;`. -/
def op_5xy0 (s : Chip8) : Chip8 :=
  if s.registers (Vx s) = s.registers (Vy s) then { s with pc := (s.pc + 2) % 65536 } else s

/-- LD Vx, kk: `registers[Vx] = byte`. -/
def op_6xkk (s : Chip8) : Chip8 :=
  setRegister s (Vx s) (byte s)

/-- ADD Vx, byte: `registers[Vx] += byte` on `uint8_t`. -/
def op_7xkk (s : Chip8) : Chip8 :=
  setRegister s (Vx s) ((s.registers (Vx s) + byte s) % 256)

/-- LD Vx, Vy: `registers[Vx] = registers[Vy]`. -/
def op_8xy0 (s : Chip8) : Chip8 :=
  setRegister s (Vx s) (s.registers (Vy s))

/-- OR Vx, Vy: `registers[Vx] |= registers[Vy]`. -/
def op_8xy1 (s : Chip8) : Chip8 :=
  setRegister s (Vx s) (s.registers (Vx s) ||| s.registers (Vy s))

/-- AND Vx, Vy: `registers[Vx] &= registers[Vy]`. -/
def op_8xy2 (s : Chip8) : Chip8 :=
  setRegister s (Vx s) (s.registers (Vx s) &&& s.registers (Vy s))

/-- XOR Vx, Vy: `registers[Vx] ^= registers[Vy]`. -/
def op_8xy3 (s : Chip8) : Chip8 :=
  setRegister s (Vx s) (s.registers (Vx s) ^^^ s.registers (Vy s))

/-- ADD Vx, Vy: `uint16_t sum = registers[Vx] + registers[Vy];
registers[15] = (sum > 255u); registers[Vx] = sum & 0xFFu;`. -/
def op_8xy4 (s : Chip8) : Chip8 :=
  let sum := (s.registers (Vx s) + s.registers (Vy s)) % 65536
  let s1 := setRegister s 15 (if sum > 255 then 1 else 0)
  setRegister s1 (Vx s) ((sum &&& 0xFF) % 256)

/-- SUB Vx, Vy: `registers[15] = (registers[Vx] > registers[Vy]);
registers[Vx] -= registers[Vy];` on `uint8_t`. -/
def op_8xy5 (s : Chip8) : Chip8 :=
  let s1 := setRegister s 15 (if s.registers (Vx s) > s.registers (Vy s) then 1 else 0)
  setRegister s1 (Vx s) ((s1.registers (Vx s) + 256 - s1.registers (Vy s) % 256) % 256)

/-- SHR Vx: `registers[15] = (registers[Vx] & 0x1u); registers[Vx] >>= 1;`. -/
def op_8xy6 (s : Chip8) : Chip8 :=
  let s1 := setRegister s 15 ((s.registers (Vx s) &&& 0x1) % 256)
  setRegister s1 (Vx s) ((s1.registers (Vx s) >>> 1) % 256)

/-- SUBN Vx, Vy: `registers[15] = (registers[Vy] > registers[Vx]);
registers[Vx] = registers[Vy] - registers[Vx];` on `uint8_t`. -/
def op_8xy7 (s : Chip8) : Chip8 :=
  let s1 := setRegister s 15 (if s.registers (Vy s) > s.registers (Vx s) then 1 else 0)
  setRegister s1 (Vx s) ((s1.registers (Vy s) + 256 - s1.registers (Vx s) % 256) % 256)

/-- SHL Vx: `registers[15] = (registers[Vx] & 0x80u) >> 7u; registers[Vx] <<= 1;`. -/
def op_8xyE (s : Chip8) : Chip8 :=
  let s1 := setRegister s 15 (((s.registers (Vx s) &&& 0x80) >>> 7) % 256)
  setRegister s1 (Vx s) ((s1.registers (Vx s) <<< 1) % 256)

/-- SNE Vx, Vy: `if(registers[Vx] != registers[Vy]) pc += 2;`. -/
def op_9xy0 (s : Chip8) : Chip8 :=
  if s.registers (Vx s) ≠ s.registers (Vy s) then { s with pc := (s.pc + 2) % 65536 } else s

/-- LD index, nnn: `index = opcode & 0x0FFFu`. -/
def op_Annn (s : Chip8) : Chip8 :=
  { s with index := nnn s }

/-- JP V0, nnn: `pc = registers[0] + opcode & 0x0FFFu`; in C++ `+` binds tighter than
`&`, so the mask applies to the sum `registers[0] + opcode`. -/
def op_Bnnn (s : Chip8) : Chip8 :=
  { s with pc := ((s.registers 0 + s.opcode) &&& 0x0FFF) % 65536 }

/-- RND Vx, kk: `registers[Vx] = randByte(randGen) & byte`; the call consumes the head
of the random stream. -/
def op_Cxkk (s : Chip8) : Chip8 :=
  let r := s.randGen 0 % 256
  let s1 := { s with randGen := fun n => s.randGen (n + 1) }
  setRegister s1 (Vx s) ((r &&& byte s) % 256)

/-- The body of the inner loop of `op_Dxyn` for column `i` of sprite row `j`.  The
reference `video[pos]` is bound before the test of the sprite pixel, so the bounds
check comes first. -/
def drawPixel (xPos yPos sprite_byte j i : Nat) (s : Chip8) : Except Fault Chip8 :=
  let sprite_pixel := (sprite_byte &&& (0x80 >>> i)) % 256
  let pos := (xPos + i) + (yPos + j) * VIDEO_WIDTH
  if pos < VIDEO_WIDTH * VIDEO_HEIGHT then
    if sprite_pixel ≠ 0 then
      let s1 := if s.video pos = 0xFFFFFFFF then setRegister s 15 1 else s
      .ok { s1 with video := Function.update s1.video pos ((s1.video pos ^^^ 0xFFFFFFFF) % 2 ^ 32) }
    else .ok s
  else .error (.videoOutOfBounds pos)

/-- The body of the outer loop of `op_Dxyn` for sprite row `j`. -/
def drawRow (xPos yPos j : Nat) (s : Chip8) : Except Fault Chip8 :=
  match readMemory s (s.index + j) with
  | .ok sprite_byte => forLoop 8 (drawPixel xPos yPos sprite_byte j) s
  | .error e => .error e

/-- DRW Vx, Vy, n. -/
def op_Dxyn (s : Chip8) : Except Fault Chip8 :=
  let height := (s.opcode &&& 0x000F) % 256
  let xPos := (s.registers (Vx s) % VIDEO_WIDTH) % 256
  let yPos := (s.registers (Vy s) % VIDEO_HEIGHT) % 256
  let s1 := setRegister s 15 0
  forLoop height (drawRow xPos yPos) s1

/-- SKP Vx: `key = registers[Vx]; if(keypad[key]) pc += 2;`. -/
def op_Ex9E (s : Chip8) : Except Fault Chip8 :=
  let key := s.registers (Vx s)
  match readKeypad s key with
  | .ok k => .ok (if k ≠ 0 then { s with pc := (s.pc + 2) % 65536 } else s)
  | .error e => .error e

/-- SKNP Vx: `key = registers[Vx]; if(!keypad[key]) pc += 2;`. -/
def op_ExA1 (s : Chip8) : Except Fault Chip8 :=
  let key := s.registers (Vx s)
  match readKeypad s key with
  | .ok k => .ok (if k = 0 then { s with pc := (s.pc + 2) % 65536 } else s)
  | .error e => .error e

/-- LD Vx, DT: `registers[Vx] = delayTimer`. -/
def op_Fx07 (s : Chip8) : Chip8 :=
  setRegister s (Vx s) s.delayTimer

/-- The scan `for (int i = 0; i < 15; ++i) if(keypad[i]) return i` of `op_Fx0A`, started
at key `i` with `n` keys left to look at: the first pressed key, if any. -/
def firstKey (s : Chip8) : Nat → Nat → Option Nat
  | 0, _ => none
  | n + 1, i => if s.keypad i ≠ 0 then some i else firstKey s n (i + 1)

/-- LD Vx, K: the first pressed key among `keypad[0..14]` goes to `registers[Vx]`;
when there is none, `pc -= 2`. -/
def op_Fx0A (s : Chip8) : Chip8 :=
  match firstKey s 15 0 with
  | some i => setRegister s (Vx s) i
  | none => { s with pc := (s.pc + 65536 - 2) % 65536 }

/-- LD DT, Vx: `delayTimer = registers[Vx]`. -/
def op_Fx15 (s : Chip8) : Chip8 :=
  { s with delayTimer := s.registers (Vx s) }

/-- LD ST, Vx: `soundTimer = registers[Vx]`. -/
def op_Fx18 (s : Chip8) : Chip8 :=
  { s with soundTimer := s.registers (Vx s) }

/-- ADD index, Vx: `index += registers[Vx]` on `uint16_t`. -/
def op_Fx1E (s : Chip8) : Chip8 :=
  { s with index := (s.index + s.registers (Vx s)) % 65536 }

/-- LD F, Vx: `digit = registers[Vx]; index = FONT_START_ADDRESS + 5 * digit;`. -/
def op_Fx29 (s : Chip8) : Chip8 :=
  let digit := s.registers (Vx s)
  { s with index := (FONT_START_ADDRESS + 5 * digit) % 65536 }

/-- LD B, Vx: the three decimal digits of `registers[Vx]`, ones first, at
`memory[index + 2]`, `memory[index + 1]`, `memory[index]`. -/
def op_Fx33 (s : Chip8) : Except Fault Chip8 :=
  let value := s.registers (Vx s)
  match writeMemory s (s.index + 2) (value % 10) with
  | .error e => .error e
  | .ok s1 =>
    let value := value / 10
    match writeMemory s1 (s1.index + 1) (value % 10) with
    | .error e => .error e
    | .ok s2 =>
      let value := value / 10
      writeMemory s2 s2.index (value % 10)

/-- LD [index], Vx: `for (int i = 0; i <= Vx; ++i) memory[index + i] = registers[i];`. -/
def op_Fx55 (s : Chip8) : Except Fault Chip8 :=
  forLoop (Vx s + 1) (fun i t => writeMemory t (t.index + i) (t.registers i)) s

/-- LD Vx, [index]: `for (int i = 0; i <= Vx; ++i) registers[i] = memory[index + i];`. -/
def op_Fx65 (s : Chip8) : Except Fault Chip8 :=
  forLoop (Vx s + 1) (fun i t =>
    match readMemory t (t.index + i) with
    | .ok v => .ok (setRegister t i v)
    | .error e => .error e) s

/-! ### Dispatch -/

/-- The map `table0`, keyed by `opcode & 0x000Fu`; a key without an entry yields an
empty `std::function`, whose call throws. -/
def table0 (s : Chip8) : Except Fault Chip8 :=
  let key := s.opcode &&& 0x000F
  if key = 0x0 then .ok (op_00E0 s)
  else if key = 0xE then op_00EE s
  else .error (.badFunctionCall s.opcode)

/-- The map `table8`, keyed by `opcode & 0x000Fu`. -/
def table8 (s : Chip8) : Except Fault Chip8 :=
  let key := s.opcode &&& 0x000F
  if key = 0x0 then .ok (op_8xy0 s)
  else if key = 0x1 then .ok (op_8xy1 s)
  else if key = 0x2 then .ok (op_8xy2 s)
  else if key = 0x3 then .ok (op_8xy3 s)
  else if key = 0x4 then .ok (op_8xy4 s)
  else if key = 0x5 then .ok (op_8xy5 s)
  else if key = 0x6 then .ok (op_8xy6 s)
  else if key = 0x7 then .ok (op_8xy7 s)
  else if key = 0xE then .ok (op_8xyE s)
  else .error (.badFunctionCall s.opcode)

/-- The map `tableE`, keyed by `opcode & 0x000Fu`. -/
def tableE (s : Chip8) : Except Fault Chip8 :=
  let key := s.opcode &&& 0x000F
  if key = 0x1 then op_ExA1 s
  else if key = 0xE then op_Ex9E s
  else .error (.badFunctionCall s.opcode)

/-- The map `tableF`, keyed by `opcode & 0x00FFu`. -/
def tableF (s : Chip8) : Except Fault Chip8 :=
  let key := s.opcode &&& 0x00FF
  if key = 0x07 then .ok (op_Fx07 s)
  else if key = 0x0A then .ok (op_Fx0A s)
  else if key = 0x15 then .ok (op_Fx15 s)
  else if key = 0x18 then .ok (op_Fx18 s)
  else if key = 0x1E then .ok (op_Fx1E s)
  else if key = 0x29 then .ok (op_Fx29 s)
  else if key = 0x33 then op_Fx33 s
  else if key = 0x55 then op_Fx55 s
  else if key = 0x65 then op_Fx65 s
  else .error (.badFunctionCall s.opcode)

/-- The array `table`, indexed by the top nibble `(opcode & 0xF000u) >> 12u`, which is
always one of its sixteen entries. -/
def table (s : Chip8) : Except Fault Chip8 :=
  let k := (s.opcode &&& 0xF000) >>> 12
  if k = 0x0 then table0 s
  else if k = 0x1 then .ok (op_1nnn s)
  else if k = 0x2 then op_2nnn s
  else if k = 0x3 then .ok (op_3xkk s)
  else if k = 0x4 then .ok (op_4xkk s)
  else if k = 0x5 then .ok (op_5xy0 s)
  else if k = 0x6 then .ok (op_6xkk s)
  else if k = 0x7 then .ok (op_7xkk s)
  else if k = 0x8 then table8 s
  else if k = 0x9 then .ok (op_9xy0 s)
  else if k = 0xA then .ok (op_Annn s)
  else if k = 0xB then .ok (op_Bnnn s)
  else if k = 0xC then .ok (op_Cxkk s)
  else if k = 0xD then op_Dxyn s
  else if k = 0xE then tableE s
  else tableF s

/-- The timer updates at the end of `cycle`: `if(delayTimer > 0) --delayTimer;
if(soundTimer > 0) --soundTimer;`. -/
def updateTimers (s : Chip8) : Chip8 :=
  let s1 := if s.delayTimer > 0 then { s with delayTimer := s.delayTimer - 1 } else s
  if s1.soundTimer > 0 then { s1 with soundTimer := s1.soundTimer - 1 } else s1

/-- One call of `Chip8::cycle()`: fetch `opcode = (memory[pc] << 8u) | memory[pc + 1]`,
`pc += 2`, dispatch through `table`, then update the timers. -/
def cycle (s : Chip8) : Except Fault Chip8 :=
  match readMemory s s.pc with
  | .error e => .error e
  | .ok hi =>
    match readMemory s (s.pc + 1) with
    | .error e => .error e
    | .ok lo =>
      let s1 := { s with opcode := ((hi <<< 8) ||| lo) % 65536 }
      let s2 := { s1 with pc := (s1.pc + 2) % 65536 }
      match table s2 with
      | .error e => .error e
      | .ok s3 => .ok (updateTimers s3)

/-- Run `n` calls of `cycle()` one after the other, stopping at the first fault. -/
def cycles : Nat → Chip8 → Except Fault Chip8
  | 0, s => .ok s
  | n + 1, s =>
    match cycle s with
    | .ok s' => cycles n s'
    | .error e => .error e

/-- The loader `Chip8::load_ROM`: `file` is the content of the ROM file as bytes, or
`none` when the file cannot be opened (then nothing happens).  The copy loop is
`for (int i = 0; i < size; ++i) memory[START_ADDRESS + i] = buffer[i];`. -/
def load_ROM (s : Chip8) (file : Option (List Nat)) : Except Fault Chip8 :=
  match file with
  | none => .ok s
  | some buffer =>
    forLoop buffer.length
      (fun i t => writeMemory t (START_ADDRESS + i) (buffer.getD i 0 % 256)) s

end Chip8

/-! ## Predicates used to state frame properties -/

namespace Chip8

/-- The word that the next `cycle` will fetch: `(memory[pc] << 8u) | memory[pc + 1]`. -/
def nextWord (s : Chip8) : Nat :=
  (s.memory s.pc <<< 8 ||| s.memory (s.pc + 1)) % 65536

/-- The next word is not a store into the font region `0x050..0x09F`: if it is `Fx33`
the three bytes at `index..index+2` lie outside the region, and if it is `Fx55` the
bytes at `index..index+X` do. -/
def storesOutsideFont (s : Chip8) : Prop :=
  (nextWord s / 4096 % 16 = 15 ∧ nextWord s % 256 = 0x33 →
      s.index + 2 < 0x50 ∨ 0x9F < s.index) ∧
  (nextWord s / 4096 % 16 = 15 ∧ nextWord s % 256 = 0x55 →
      s.index + nextWord s / 256 % 16 < 0x50 ∨ 0x9F < s.index)

instance (s : Chip8) : Decidable (storesOutsideFont s) := by
  unfold storesOutsideFont
  infer_instance

/-- The state `s'` has the framebuffer, stack, stack depth, memory and keypad of `s`. -/
def SameArrays (s s' : Chip8) : Prop :=
  s'.video = s.video ∧ s'.stack = s.stack ∧ s'.sp = s.sp ∧ s'.memory = s.memory ∧
  s'.keypad = s.keypad

/-- The state `s'` differs from `s` at most in the framebuffer and in register 15. -/
def SameButVideoVF (s s' : Chip8) : Prop :=
  s'.index = s.index ∧ s'.pc = s.pc ∧ s'.opcode = s.opcode ∧ s'.stack = s.stack ∧
  s'.sp = s.sp ∧ s'.delayTimer = s.delayTimer ∧ s'.soundTimer = s.soundTimer ∧
  s'.memory = s.memory ∧ s'.keypad = s.keypad ∧ s'.randGen = s.randGen ∧
  ∀ k, k ≠ 15 → s'.registers k = s.registers k

end Chip8

/-! ## The invariant of the drawing loops -/

namespace Chip8

/-- The state `t` reached from `s0` once the sprite pixels `(j, i)` (row, column) with
`done j i` have been drawn at `(xPos, yPos)`: a cell under a set sprite bit among them
has been XOR-ed with `0xFFFFFFFF`, every other cell is as in `s0`; register 15 is 1 if
one of these set bits met a cell holding `0xFFFFFFFF`, and 0 if none did; memory and
index are as in `s0`. -/
def DrawInv (xPos yPos : Nat) (s0 : Chip8) (done : Nat → Nat → Prop) (t : Chip8) : Prop :=
  (∀ p, (∃ j i, done j i ∧ (s0.memory (s0.index + j)).testBit (7 - i) = true ∧
      p = (xPos + i) + (yPos + j) * VIDEO_WIDTH) →
    t.video p = (s0.video p ^^^ 0xFFFFFFFF) % 2 ^ 32) ∧
  (∀ p, ¬ (∃ j i, done j i ∧ (s0.memory (s0.index + j)).testBit (7 - i) = true ∧
      p = (xPos + i) + (yPos + j) * VIDEO_WIDTH) →
    t.video p = s0.video p) ∧
  ((∃ j i, done j i ∧ (s0.memory (s0.index + j)).testBit (7 - i) = true ∧
      s0.video ((xPos + i) + (yPos + j) * VIDEO_WIDTH) = 0xFFFFFFFF) →
    t.registers 15 = 1) ∧
  (¬ (∃ j i, done j i ∧ (s0.memory (s0.index + j)).testBit (7 - i) = true ∧
      s0.video ((xPos + i) + (yPos + j) * VIDEO_WIDTH) = 0xFFFFFFFF) →
    t.registers 15 = 0) ∧
  t.memory = s0.memory ∧ t.index = s0.index

end Chip8

/-! ## Sample states for concrete evaluation -/

namespace Chip8

/-- The all-zero machine state with the given opcode and register file. -/
def sample (opcode : Nat) (registers : Nat → Nat) : Chip8 :=
  { video := fun _ => 0, index := 0, pc := 0, opcode := opcode, stack := fun _ => 0, sp := 0,
    delayTimer := 0, soundTimer := 0, registers := registers, memory := fun _ => 0,
    keypad := fun _ => 0, randGen := fun _ => 0 }

/-- Registers `V0 = 2` and `VF = 1`, all others zero. -/
def regsV0VF : Nat → Nat := fun i => if i = 0 then 2 else if i = 15 then 1 else 0

/-- Registers `V0 = 200` and `V1 = 100`, all others zero. -/
def regsCarry : Nat → Nat := fun i => if i = 0 then 200 else if i = 1 then 100 else 0

/-- A machine state with the given `pc`, memory, register file and timers, everything
else zero. -/
def sampleAt (pc : Nat) (memory registers : Nat → Nat) (delayTimer soundTimer : Nat) : Chip8 :=
  { video := fun _ => 0, index := 0, pc := pc, opcode := 0, stack := fun _ => 0, sp := 0,
    delayTimer := delayTimer, soundTimer := soundTimer, registers := registers,
    memory := memory, keypad := fun _ => 0, randGen := fun _ => 0 }

/-- Memory holding the two bytes `hi`, `lo` at `0x200` and `0x201`, zero elsewhere. -/
def wordAt200 (hi lo : Nat) : Nat → Nat :=
  fun a => if a = 0x200 then hi else if a = 0x201 then lo else 0

/-- Memory holding the call `0x2300` at `0x200` and the return `0x00EE` at `0x300`. -/
def callReturnMemory : Nat → Nat :=
  fun a => if a = 0x200 then 0x23 else if a = 0x301 then 0xEE else 0

/-- Registers `V0 = 158`, all others zero. -/
def regsBCD : Nat → Nat := fun i => if i = 0 then 158 else 0

/-- Registers `V0 = 5` and `V1 = 5`, all others zero. -/
def regsEqual : Nat → Nat := fun i => if i = 0 then 5 else if i = 1 then 5 else 0

/-- The draw word `0xD011` (X = 0, Y = 1, one row) with `V0 = V1 = 5`, index 0, the
sprite row `0xF0` at `memory[0]` and a dark screen. -/
def sampleDraw : Chip8 :=
  { sample 0xD011 regsEqual with memory := fun a => if a = 0 then 0xF0 else 0 }

/-- A freshly constructed machine (uninitialised members taken as 0) with `buffer`
loaded by `load_ROM`. -/
def loaded (buffer : List Nat) : Chip8 :=
  match load_ROM (new 0 0 0 0 0 (fun _ => 0)) (some buffer) with
  | .ok s => s
  | .error _ => new 0 0 0 0 0 (fun _ => 0)

/-- The result of one `cycle` from `s`, or `s` itself when the cycle faults. -/
def afterCycle (s : Chip8) : Chip8 :=
  match cycle s with
  | .ok t => t
  | .error _ => s

/-- The word `0xF30A` (wait for a key, X = 3) at `pc = 0x200`, with the given keypad. -/
def sampleKeys (keypad : Nat → Nat) : Chip8 :=
  { sampleAt 0x200 (wordAt200 0xF3 0x0A) regsEqual 0 0 with keypad := keypad }

/-- Only key 15 pressed. -/
def keysOnly15 : Nat → Nat := fun k => if k = 15 then 1 else 0

/-- Keys 4, 9 and 15 pressed. -/
def keys4and9 : Nat → Nat := fun k => if k = 4 then 1 else if k = 9 then 1 else if k = 15 then 1 else 0

/-- The word `hi lo` at `pc = 0x200` with stack depth `sp`. -/
def sampleDepth (hi lo sp : Nat) : Chip8 :=
  { sampleAt 0x200 (wordAt200 hi lo) regsEqual 0 0 with sp := sp }

/-- Registers `V0 = 0xFF`, all others zero. -/
def regsFF : Nat → Nat := fun i => if i = 0 then 0xFF else 0

/-- Registers `V0 = 16`, all others zero. -/
def regs16 : Nat → Nat := fun i => if i = 0 then 16 else 0

/-- Registers `V0 = 63` and `V1 = 31`: the bottom right corner of the screen. -/
def regsCorner : Nat → Nat := fun i => if i = 0 then 63 else if i = 1 then 31 else 0

/-- Registers `V0 = 60` and `V1 = 0`: four cells before the right edge of the top row. -/
def regsRightEdge : Nat → Nat := fun i => if i = 0 then 60 else 0

/-- The draw word `0xD011` (X = 0, Y = 1, one row) with the given registers, index 0,
the sprite row `0xFF` at `memory[0]` and a dark screen. -/
def sampleDrawFF (registers : Nat → Nat) : Chip8 :=
  { sample 0xD011 registers with memory := fun a => if a = 0 then 0xFF else 0 }

end Chip8

/-! ## Bit masks as division and remainder -/

theorem mask_shift (w m k : Nat) (n : Nat) (hm : m >>> k = 2 ^ n - 1) :
    (w &&& m) >>> k = w / 2 ^ k % 2 ^ n := by
  have h : (w &&& m) >>> k = (w >>> k) &&& (2 ^ n - 1) := by
    apply Nat.eq_of_testBit_eq
    intro j
    have key : Nat.testBit (m >>> k) j = Nat.testBit m (k + j) := Nat.testBit_shiftRight m
    rw [hm] at key
    rw [Nat.testBit_shiftRight, Nat.testBit_and, Nat.testBit_and, Nat.testBit_shiftRight, key]
  rw [h, Nat.and_pow_two_sub_one_eq_mod, Nat.shiftRight_eq_div_pow]

theorem mask_x (w : Nat) : (w &&& 0x0F00) >>> 8 = w / 256 % 16 :=
  mask_shift w 0x0F00 8 4 (by decide)

theorem mask_y (w : Nat) : (w &&& 0x00F0) >>> 4 = w / 16 % 16 :=
  mask_shift w 0x00F0 4 4 (by decide)

theorem mask_top (w : Nat) : (w &&& 0xF000) >>> 12 = w / 4096 % 16 :=
  mask_shift w 0xF000 12 4 (by decide)

theorem mask_n (w : Nat) : w &&& 0x000F = w % 16 := Nat.and_pow_two_sub_one_eq_mod w 4
theorem mask_kk (w : Nat) : w &&& 0x00FF = w % 256 := Nat.and_pow_two_sub_one_eq_mod w 8
theorem mask_nnn (w : Nat) : w &&& 0x0FFF = w % 4096 := Nat.and_pow_two_sub_one_eq_mod w 12

theorem fetch_word (hi lo : Nat) (h : lo < 256) : (hi <<< 8) ||| lo = hi * 256 + lo := by
  rw [Nat.shiftLeft_eq, Nat.mul_comm, ← Nat.mul_add_lt_is_or (by simpa using h)]

theorem bit_mask (b i : Nat) (hi : i < 8) :
    ((b &&& (0x80 >>> i)) % 256 ≠ 0) ↔ b.testBit (7 - i) = true := by
  have e : (0x80 : Nat) >>> i = 2 ^ (7 - i) := by
    interval_cases i <;> decide
  have hlt : 2 ^ (7 - i) < 256 := by
    interval_cases i <;> decide
  rw [e, Nat.and_two_pow]
  cases hb : b.testBit (7 - i)
  · simp
  · simp [Nat.mod_eq_of_lt hlt]

/-! ## Operand fields -/

namespace Chip8

theorem Vx_eq (s : Chip8) : Vx s = s.opcode / 256 % 16 := by
  unfold Vx
  rw [mask_x]
  omega

theorem Vy_eq (s : Chip8) : Vy s = s.opcode / 16 % 16 := by
  unfold Vy
  rw [mask_y]
  omega

theorem byte_eq (s : Chip8) : byte s = s.opcode % 256 := by
  unfold byte
  rw [mask_kk]
  omega

theorem nnn_eq (s : Chip8) : nnn s = s.opcode % 4096 := by
  unfold nnn
  rw [mask_nnn]
  omega

theorem Vx_lt (s : Chip8) : Vx s < 16 := by
  unfold Vx
  have h : s.opcode &&& 0x0F00 ≤ 0x0F00 := Nat.and_le_right
  rw [Nat.shiftRight_eq_div_pow]
  omega

theorem Vy_lt (s : Chip8) : Vy s < 16 := by
  unfold Vy
  have h : s.opcode &&& 0x00F0 ≤ 0x00F0 := Nat.and_le_right
  rw [Nat.shiftRight_eq_div_pow]
  omega

theorem byte_lt (s : Chip8) : byte s < 256 := by
  unfold byte
  omega

theorem nnn_lt (s : Chip8) : nnn s < 4096 := by
  unfold nnn
  have h : s.opcode &&& 0x0FFF ≤ 0x0FFF := Nat.and_le_right
  omega

@[simp] theorem setRegister_registers (s : Chip8) (i v : Nat) :
    (setRegister s i v).registers = Function.update s.registers i v := rfl

/-! ## ADD Vx, Vy -/

/-- C1 (as amended): for X in 0..14 and any Y, with `a`, `b` the 8-bit values of
registers X and Y before the call, `op_8xy4` leaves register X equal to `(a + b) mod 256`
and register 15 equal to 1 if `a + b > 255` and to 0 otherwise. -/
theorem op_8xy4_spec (s : Chip8) (a b : Nat) (hX : Vx s ≠ 15) (ha : s.registers (Vx s) = a)
    (hb : s.registers (Vy s) = b) (ha8 : a < 256) (hb8 : b < 256) :
    (op_8xy4 s).registers (Vx s) = (a + b) % 256 ∧
      (op_8xy4 s).registers 15 = if a + b > 255 then 1 else 0 := by
  subst ha hb
  have hm : ∀ n : Nat, (n &&& 0xFF) = n % 256 := fun n => Nat.and_pow_two_sub_one_eq_mod n 8
  have hX' : (15 : Nat) ≠ Vx s := fun h => hX h.symm
  refine ⟨?_, ?_⟩
  · simp only [op_8xy4, setRegister_registers, Function.update_same, hm]
    omega
  · simp only [op_8xy4, setRegister_registers, Function.update_noteq hX', Function.update_same]
    have : (s.registers (Vx s) + s.registers (Vy s)) % 65536
        = s.registers (Vx s) + s.registers (Vy s) := Nat.mod_eq_of_lt (by omega)
    rw [this]

/-- Witness for `op_8xy4_spec`: `V0 = 200`, `V1 = 100`, opcode `0x8014`. -/
theorem op_8xy4_spec_witness :
    (op_8xy4 (sample 0x8014 regsCarry)).registers (Vx (sample 0x8014 regsCarry))
        = (200 + 100) % 256 ∧
      (op_8xy4 (sample 0x8014 regsCarry)).registers 15 = if 200 + 100 > 255 then 1 else 0 :=
  op_8xy4_spec (sample 0x8014 regsCarry) 200 100 (by decide) (by decide) (by decide)
    (by decide) (by decide)

/-- C1 (counterexample): with X = 15 (opcode `0x8F04`), `VF = 1` and `V0 = 2`, the sum
3 does not exceed 255, yet `op_8xy4` leaves register 15 equal to 3, not to 0. -/
theorem op_8xy4_flag_counterexample :
    Vx (sample 0x8F04 regsV0VF) = 15 ∧ Vy (sample 0x8F04 regsV0VF) = 0 ∧
      (sample 0x8F04 regsV0VF).registers 15 = 1 ∧ (sample 0x8F04 regsV0VF).registers 0 = 2 ∧
      (op_8xy4 (sample 0x8F04 regsV0VF)).registers 15 = 3 ∧
      (op_8xy4 (sample 0x8F04 regsV0VF)).registers 15 ≠ (if 1 + 2 > 255 then 1 else 0) := by
  decide

/-! ## SUB Vx, Vy and SUBN Vx, Vy -/

/-- What `op_8xy5` computes when neither operand register is the flag register: the
wrapped difference `a - b`, and a flag that is 1 exactly when `a > b`. -/
theorem op_8xy5_strict (s : Chip8) (a b : Nat) (hX : Vx s ≠ 15) (hY : Vy s ≠ 15)
    (ha : s.registers (Vx s) = a) (hb : s.registers (Vy s) = b) (ha8 : a < 256) (hb8 : b < 256) :
    ((op_8xy5 s).registers (Vx s) : Int) = ((a : Int) - b) % 256 ∧
      (op_8xy5 s).registers 15 = if a > b then 1 else 0 := by
  subst ha hb
  have hX' : (15 : Nat) ≠ Vx s := fun h => hX h.symm
  have hY' : Vy s ≠ 15 := hY
  simp only [op_8xy5, setRegister_registers, Function.update_noteq hX', Function.update_same,
    Function.update_noteq hX, Function.update_noteq hY']
  refine ⟨?_, trivial⟩
  omega

/-- What `op_8xy7` computes when neither operand register is the flag register: the
wrapped difference `b - a`, and a flag that is 1 exactly when `b > a`. -/
theorem op_8xy7_strict (s : Chip8) (a b : Nat) (hX : Vx s ≠ 15) (hY : Vy s ≠ 15)
    (ha : s.registers (Vx s) = a) (hb : s.registers (Vy s) = b) (ha8 : a < 256) (hb8 : b < 256) :
    ((op_8xy7 s).registers (Vx s) : Int) = ((b : Int) - a) % 256 ∧
      (op_8xy7 s).registers 15 = if b > a then 1 else 0 := by
  subst ha hb
  have hX' : (15 : Nat) ≠ Vx s := fun h => hX h.symm
  have hY' : Vy s ≠ 15 := hY
  simp only [op_8xy7, setRegister_registers, Function.update_noteq hX', Function.update_same,
    Function.update_noteq hX, Function.update_noteq hY']
  refine ⟨?_, trivial⟩
  omega

/-- C2 (the code at the failing input): with `V0 = V1 = 5`, so that minuend and
subtrahend are equal and no borrow occurs, `op_8xy5` (opcode `0x8015`) and `op_8xy7`
(opcode `0x8017`) both leave register 0 equal to 0 and the flag register 15 equal to 0,
where the claim asks for flag 1. -/
theorem op_8xy5_op_8xy7_equal_operands :
    Vx (sample 0x8015 regsEqual) = 0 ∧ Vy (sample 0x8015 regsEqual) = 1 ∧
      (sample 0x8015 regsEqual).registers 0 = 5 ∧ (sample 0x8015 regsEqual).registers 1 = 5 ∧
      (op_8xy5 (sample 0x8015 regsEqual)).registers 0 = 0 ∧
      (op_8xy5 (sample 0x8015 regsEqual)).registers 15 = 0 ∧
      Vx (sample 0x8017 regsEqual) = 0 ∧ Vy (sample 0x8017 regsEqual) = 1 ∧
      (op_8xy7 (sample 0x8017 regsEqual)).registers 0 = 0 ∧
      (op_8xy7 (sample 0x8017 regsEqual)).registers 15 = 0 := by
  decide

/-! ## Fetch, dispatch and timers -/

@[simp] theorem updateTimers_pc (s : Chip8) : (updateTimers s).pc = s.pc := by
  simp only [updateTimers]; split_ifs <;> rfl

@[simp] theorem updateTimers_sp (s : Chip8) : (updateTimers s).sp = s.sp := by
  simp only [updateTimers]; split_ifs <;> rfl

@[simp] theorem updateTimers_stack (s : Chip8) : (updateTimers s).stack = s.stack := by
  simp only [updateTimers]; split_ifs <;> rfl

@[simp] theorem updateTimers_memory (s : Chip8) : (updateTimers s).memory = s.memory := by
  simp only [updateTimers]; split_ifs <;> rfl

@[simp] theorem updateTimers_registers (s : Chip8) :
    (updateTimers s).registers = s.registers := by
  simp only [updateTimers]; split_ifs <;> rfl

@[simp] theorem updateTimers_delayTimer (s : Chip8) :
    (updateTimers s).delayTimer = s.delayTimer - 1 := by
  simp only [updateTimers]; split_ifs <;> (try dsimp only) <;> omega

@[simp] theorem updateTimers_soundTimer (s : Chip8) :
    (updateTimers s).soundTimer = s.soundTimer - 1 := by
  simp only [updateTimers]
  split_ifs with h1 h2 h2 <;> (try dsimp only at h2 ⊢) <;> omega

/-- The state in which `cycle` calls the handler: the fetched word in `opcode`, and
`pc` moved past it. -/
theorem cycle_of_fetch (s : Chip8) (hpc : s.pc + 1 < 4096) :
    cycle s =
      match table { s with opcode := (s.memory s.pc <<< 8 ||| s.memory (s.pc + 1)) % 65536,
                           pc := s.pc + 2 } with
      | .error e => .error e
      | .ok s3 => .ok (updateTimers s3) := by
  have h0 : s.pc < 4096 := by omega
  simp only [cycle, readMemory, MEMORY_SIZE, h0, hpc, if_true,
    Nat.mod_eq_of_lt (show s.pc + 2 < 65536 by omega)]

theorem table_3 (s : Chip8) (h : s.opcode / 4096 % 16 = 3) : table s = .ok (op_3xkk s) := by
  unfold table
  simp [mask_top, h]

/-! ## SE Vx, kk through a cycle -/

/-- C4: when the two bytes at `pc` are `0x3X` and `kk` and `pc + 1 < 4096`, one call of
`cycle` succeeds and leaves `pc` at its old value plus 4 if register X equals `kk`,
plus 2 otherwise. -/
theorem cycle_3xkk_pc (s : Chip8) (X kk : Nat) (hpc : s.pc + 1 < 4096) (hX : X < 16)
    (hkk : kk < 256) (hhi : s.memory s.pc = 0x30 + X) (hlo : s.memory (s.pc + 1) = kk) :
    ∃ s', cycle s = .ok s' ∧
      s'.pc = if s.registers X = kk then s.pc + 4 else s.pc + 2 := by
  have hw : (s.memory s.pc <<< 8 ||| s.memory (s.pc + 1)) % 65536 = (0x30 + X) * 256 + kk := by
    rw [hhi, hlo, fetch_word _ _ hkk]
    omega
  rw [cycle_of_fetch s hpc, hw, table_3 _ (by simp only []; omega)]
  refine ⟨_, rfl, ?_⟩
  rw [updateTimers_pc]
  generalize ht : ({ s with opcode := (0x30 + X) * 256 + kk, pc := s.pc + 2 } : Chip8) = t
  have hop : t.opcode = (0x30 + X) * 256 + kk := by rw [← ht]
  have hp : t.pc = s.pc + 2 := by rw [← ht]
  have hr : t.registers = s.registers := by rw [← ht]
  have hx : Vx t = X := by
    rw [Vx_eq, hop]
    omega
  have hb : byte t = kk := by
    rw [byte_eq, hop]
    omega
  simp only [op_3xkk, hx, hb, hr]
  split_ifs with h
  · simp only [hp]
    omega
  · exact hp

/-- Witness for `cycle_3xkk_pc`: `V0 = 5` and the word `0x3005` at `pc = 0x200`. -/
theorem cycle_3xkk_pc_witness :
    ∃ s', cycle (sampleAt 0x200 (wordAt200 0x30 0x05) regsEqual 0 0) = .ok s' ∧
      s'.pc = if (sampleAt 0x200 (wordAt200 0x30 0x05) regsEqual 0 0).registers 0 = 5
        then (sampleAt 0x200 (wordAt200 0x30 0x05) regsEqual 0 0).pc + 4
        else (sampleAt 0x200 (wordAt200 0x30 0x05) regsEqual 0 0).pc + 2 :=
  cycle_3xkk_pc (sampleAt 0x200 (wordAt200 0x30 0x05) regsEqual 0 0) 0 5
    (by decide) (by decide) (by decide) (by decide) (by decide)

/-! ## SHR Vx -/

/-- C9: for X other than 15 and `v < 256` the value of register X, `op_8xy6` leaves
register X equal to `v / 2` and register 15 equal to `v % 2`, whatever the Y field. -/
theorem op_8xy6_spec (s : Chip8) (v : Nat) (hX : Vx s ≠ 15) (hv : s.registers (Vx s) = v)
    (hv8 : v < 256) :
    (op_8xy6 s).registers (Vx s) = v / 2 ∧ (op_8xy6 s).registers 15 = v % 2 := by
  subst hv
  have hX' : (15 : Nat) ≠ Vx s := fun h => hX h.symm
  simp only [op_8xy6, setRegister_registers, Function.update_same, Function.update_noteq hX,
    Function.update_noteq hX', Nat.and_one_is_mod, Nat.shiftRight_eq_div_pow]
  omega

/-- Witness for `op_8xy6_spec`: `V0 = 5` (binary 101) with opcode `0x8016`. -/
theorem op_8xy6_spec_witness :
    (op_8xy6 (sample 0x8016 regsEqual)).registers (Vx (sample 0x8016 regsEqual)) = 5 / 2 ∧
      (op_8xy6 (sample 0x8016 regsEqual)).registers 15 = 5 % 2 :=
  op_8xy6_spec (sample 0x8016 regsEqual) 5 (by decide) (by decide) (by decide)

/-! ## CLS -/

/-- C10: `op_00E0` leaves every one of the 2048 framebuffer cells equal to 0 and leaves
memory, registers, index, pc, stack, stack depth, timers and keypad unchanged. -/
theorem op_00E0_spec (s : Chip8) :
    (∀ p, p < VIDEO_WIDTH * VIDEO_HEIGHT → (op_00E0 s).video p = 0) ∧
      (op_00E0 s).memory = s.memory ∧ (op_00E0 s).registers = s.registers ∧
      (op_00E0 s).index = s.index ∧ (op_00E0 s).pc = s.pc ∧ (op_00E0 s).stack = s.stack ∧
      (op_00E0 s).sp = s.sp ∧ (op_00E0 s).delayTimer = s.delayTimer ∧
      (op_00E0 s).soundTimer = s.soundTimer ∧ (op_00E0 s).keypad = s.keypad :=
  ⟨fun _ _ => rfl, rfl, rfl, rfl, rfl, rfl, rfl, rfl, rfl, rfl⟩

/-! ## LD B, Vx -/

/-- C7: with `v < 256` the value of register X and `i` the index, `i + 2 < 4096`,
`op_Fx33` succeeds and leaves `memory[i] = v / 100`, `memory[i+1] = v / 10 % 10` and
`memory[i+2] = v % 10`; these are decimal digits with
`100 * memory[i] + 10 * memory[i+1] + memory[i+2] = v`; every other memory byte, the
registers and the index are unchanged. -/
theorem op_Fx33_spec (s : Chip8) (v i : Nat) (hv : s.registers (Vx s) = v) (hv8 : v < 256)
    (hi : s.index = i) (hb : i + 2 < 4096) :
    ∃ s', op_Fx33 s = .ok s' ∧
      s'.memory i = v / 100 ∧ s'.memory (i + 1) = v / 10 % 10 ∧ s'.memory (i + 2) = v % 10 ∧
      100 * s'.memory i + 10 * s'.memory (i + 1) + s'.memory (i + 2) = v ∧
      s'.memory i ≤ 9 ∧ s'.memory (i + 1) ≤ 9 ∧ s'.memory (i + 2) ≤ 9 ∧
      (∀ a, a ≠ i → a ≠ i + 1 → a ≠ i + 2 → s'.memory a = s.memory a) ∧
      s'.registers = s.registers ∧ s'.index = s.index := by
  subst hv hi
  have h2 : s.index + 2 < 4096 := hb
  have h1 : s.index + 1 < 4096 := by omega
  have h0 : s.index < 4096 := by omega
  have e1 : s.index + 1 ≠ s.index := by omega
  have e2 : s.index + 2 ≠ s.index := by omega
  have e3 : s.index + 2 ≠ s.index + 1 := by omega
  have hd : s.registers (Vx s) / 10 / 10 % 10 = s.registers (Vx s) / 100 := by omega
  refine ⟨_, by simp only [op_Fx33, writeMemory, MEMORY_SIZE, h0, h1, h2, if_true]; rfl, ?_⟩
  simp only [Function.update_same, Function.update_noteq e1, Function.update_noteq e2,
    Function.update_noteq e3, hd]
  refine ⟨trivial, trivial, trivial, by omega, by omega, by omega, by omega, ?_, trivial, trivial⟩
  intro a a0 a1 a2
  simp only [Function.update_noteq a0, Function.update_noteq a1, Function.update_noteq a2]

/-- Witness for `op_Fx33_spec`: `V0 = 158`, index 0, opcode `0xF033`. -/
theorem op_Fx33_spec_witness :
    ∃ s', op_Fx33 (sample 0xF033 regsBCD) = .ok s' ∧
      s'.memory 0 = 158 / 100 ∧ s'.memory (0 + 1) = 158 / 10 % 10 ∧
      s'.memory (0 + 2) = 158 % 10 ∧
      100 * s'.memory 0 + 10 * s'.memory (0 + 1) + s'.memory (0 + 2) = 158 ∧
      s'.memory 0 ≤ 9 ∧ s'.memory (0 + 1) ≤ 9 ∧ s'.memory (0 + 2) ≤ 9 ∧
      (∀ a, a ≠ 0 → a ≠ 0 + 1 → a ≠ 0 + 2 →
        s'.memory a = (sample 0xF033 regsBCD).memory a) ∧
      s'.registers = (sample 0xF033 regsBCD).registers ∧
      s'.index = (sample 0xF033 regsBCD).index :=
  op_Fx33_spec (sample 0xF033 regsBCD) 158 0 (by decide) (by decide) rfl (by decide)

/-! ## LD [index], Vx and LD Vx, [index] -/

theorem forLoop_succ_ok {σ : Type} {n : Nat} {body : Nat → σ → Except Fault σ} {s s' : σ}
    (h : forLoop n body s = .ok s') : forLoop (n + 1) body s = body n s' := by
  simp only [forLoop, h]

/-- The store loop of `op_Fx55` after `n` rounds: `memory[index + k] = registers[k]`
for `k < n`, nothing else changed. -/
theorem storeLoop_eq (s : Chip8) (n : Nat) (h : s.index + n ≤ 4096) :
    forLoop n (fun i t => writeMemory t (t.index + i) (t.registers i)) s =
      .ok { s with memory := fun a =>
        if s.index ≤ a ∧ a < s.index + n then s.registers (a - s.index) else s.memory a } := by
  induction n with
  | zero =>
    have : (fun a =>
        if s.index ≤ a ∧ a < s.index + 0 then s.registers (a - s.index) else s.memory a)
        = s.memory := by
      funext a
      rw [if_neg (by omega)]
    rw [this]
    rfl
  | succ n ih =>
    have hlt : s.index + n < 4096 := by omega
    rw [forLoop_succ_ok (ih (by omega))]
    simp only [writeMemory, MEMORY_SIZE, hlt, if_true]
    congr 2
    funext a
    by_cases ha : a = s.index + n
    · subst ha
      rw [Function.update_same, if_pos (by omega)]
      congr 1
      omega
    · rw [Function.update_noteq ha]
      by_cases hr : s.index ≤ a ∧ a < s.index + n
      · rw [if_pos hr, if_pos (by omega)]
      · rw [if_neg hr, if_neg (by omega)]

/-- The load loop of `op_Fx65` after `n` rounds: `registers[k] = memory[index + k]`
for `k < n`, nothing else changed. -/
theorem loadLoop_eq (s : Chip8) (n : Nat) (h : s.index + n ≤ 4096) :
    forLoop n (fun i t =>
        match readMemory t (t.index + i) with
        | .ok v => .ok (setRegister t i v)
        | .error e => .error e) s =
      .ok { s with registers := fun k =>
        if k < n then s.memory (s.index + k) else s.registers k } := by
  induction n with
  | zero =>
    simp only [forLoop]
    rfl
  | succ n ih =>
    have hlt : s.index + n < 4096 := by omega
    rw [forLoop_succ_ok (ih (by omega))]
    simp only [readMemory, MEMORY_SIZE, hlt, if_true, setRegister]
    congr 2
    funext k
    by_cases hk : k = n
    · subst hk
      rw [Function.update_same, if_pos (by omega)]
    · rw [Function.update_noteq hk]
      by_cases hr : k < n
      · rw [if_pos hr, if_pos (by omega)]
      · rw [if_neg hr, if_neg (by omega)]

/-- C6: when `index + X < 4096`, `op_Fx55` succeeds and leaves index and registers
unchanged; and in any state that has the memory and index it produced and the same X,
whatever its registers, `op_Fx65` succeeds and leaves registers `0..X` equal to the
original registers `0..X`. -/
theorem store_load_roundtrip (s : Chip8) (hb : s.index + Vx s < 4096) :
    ∃ s1, op_Fx55 s = .ok s1 ∧ s1.index = s.index ∧ s1.registers = s.registers ∧
      ∀ t : Chip8, t.memory = s1.memory → t.index = s1.index → Vx t = Vx s →
        ∃ t', op_Fx65 t = .ok t' ∧ ∀ k, k ≤ Vx s → t'.registers k = s.registers k := by
  refine ⟨_, storeLoop_eq s (Vx s + 1) (by omega), rfl, rfl, ?_⟩
  intro t hm hi hx
  have hi' : t.index = s.index := hi
  have hm' : t.memory = fun a =>
      if s.index ≤ a ∧ a < s.index + (Vx s + 1) then s.registers (a - s.index)
      else s.memory a := hm
  have hl : op_Fx65 t = .ok { t with registers := fun k =>
      if k < (Vx s + 1) then t.memory (t.index + k) else t.registers k } := by
    unfold op_Fx65
    rw [hx]
    exact loadLoop_eq t (Vx s + 1) (by omega)
  refine ⟨_, hl, ?_⟩
  intro k hk
  simp only [hm', hi']
  rw [if_pos (by omega), if_pos (by omega)]
  congr 1
  omega

/-- Witness for `store_load_roundtrip`: opcode `0xF155` (X = 1) at index 0 with
`V0 = 200`, `V1 = 100`. -/
theorem store_load_roundtrip_witness :
    ∃ s1, op_Fx55 (sample 0xF155 regsCarry) = .ok s1 ∧
      s1.index = (sample 0xF155 regsCarry).index ∧
      s1.registers = (sample 0xF155 regsCarry).registers ∧
      ∀ t : Chip8, t.memory = s1.memory → t.index = s1.index →
        Vx t = Vx (sample 0xF155 regsCarry) →
        ∃ t', op_Fx65 t = .ok t' ∧
          ∀ k, k ≤ Vx (sample 0xF155 regsCarry) →
            t'.registers k = (sample 0xF155 regsCarry).registers k :=
  store_load_roundtrip (sample 0xF155 regsCarry) (by decide)

/-! ## CALL and RET through a cycle -/

theorem table_2 (s : Chip8) (h : s.opcode / 4096 % 16 = 2) : table s = op_2nnn s := by
  unfold table
  simp [mask_top, h]

theorem table_00EE (s : Chip8) (h : s.opcode = 0x00EE) : table s = op_00EE s := by
  unfold table table0
  simp [mask_top, mask_n, h]

/-- One cycle on a call word `2nnn` with stack depth below 16: the address after the
call goes to `stack[sp]`, the depth grows by one and `pc` becomes `nnn`. -/
theorem cycle_2nnn (s : Chip8) (a : Nat) (hpc : s.pc + 1 < 4096) (hsp : s.sp < 16)
    (ha : a < 4096) (hhi : s.memory s.pc = 0x20 + a / 256) (hlo : s.memory (s.pc + 1) = a % 256) :
    ∃ s1, cycle s = .ok s1 ∧ s1.pc = a ∧ s1.sp = s.sp + 1 ∧
      s1.stack = Function.update s.stack s.sp (s.pc + 2) ∧ s1.memory = s.memory := by
  have hw : (s.memory s.pc <<< 8 ||| s.memory (s.pc + 1)) % 65536 = 0x2000 + a := by
    rw [hhi, hlo, fetch_word _ _ (by omega)]
    omega
  rw [cycle_of_fetch s hpc, hw, table_2 _ (by simp only []; omega)]
  simp only [op_2nnn, writeStack, STACK_LEVELS, hsp, if_true, nnn_eq]
  refine ⟨_, rfl, ?_, ?_, ?_, ?_⟩
  · rw [updateTimers_pc]
    simp only []
    omega
  · rw [updateTimers_sp]
    simp only []
    omega
  · rw [updateTimers_stack]
  · rw [updateTimers_memory]

/-- One cycle on the return word `00EE` with stack depth in `1..16`: the depth shrinks
by one and `pc` becomes the address in the slot that was on top. -/
theorem cycle_00EE (s : Chip8) (hpc : s.pc + 1 < 4096) (hsp0 : 0 < s.sp) (hsp : s.sp ≤ 16)
    (hhi : s.memory s.pc = 0x00) (hlo : s.memory (s.pc + 1) = 0xEE) :
    ∃ s2, cycle s = .ok s2 ∧ s2.pc = s.stack (s.sp - 1) ∧ s2.sp = s.sp - 1 := by
  have hw : (s.memory s.pc <<< 8 ||| s.memory (s.pc + 1)) % 65536 = 0x00EE := by
    rw [hhi, hlo]
    decide
  have hd : (s.sp + 255) % 256 = s.sp - 1 := by omega
  have hlt : s.sp - 1 < 16 := by omega
  rw [cycle_of_fetch s hpc, hw, table_00EE _ rfl]
  simp only [op_00EE, readStack, STACK_LEVELS, hd, hlt, if_true]
  exact ⟨_, rfl, by rw [updateTimers_pc], by rw [updateTimers_sp]⟩

/-- C5: with stack depth `sp0 < 16`, `pc = p`, `p + 1 < 4096`, the call word `2nnn` at
`p` (`nnn = a`) and the return word `00EE` at `a` (`a + 1 < 4096`), the first `cycle`
succeeds with `pc = a`, depth `sp0 + 1` and `stack[sp0] = p + 2`, and the second
succeeds with `pc = p + 2` and depth `sp0`. -/
theorem call_return_roundtrip (s : Chip8) (p a sp0 : Nat) (hsp : s.sp = sp0) (hsp16 : sp0 < 16)
    (hp : s.pc = p) (hp1 : p + 1 < 4096) (ha : a + 1 < 4096)
    (hhi : s.memory p = 0x20 + a / 256) (hlo : s.memory (p + 1) = a % 256)
    (hret0 : s.memory a = 0x00) (hret1 : s.memory (a + 1) = 0xEE) :
    ∃ s1 s2, cycle s = .ok s1 ∧ s1.pc = a ∧ s1.sp = sp0 + 1 ∧ s1.stack sp0 = p + 2 ∧
      cycle s1 = .ok s2 ∧ s2.pc = p + 2 ∧ s2.sp = sp0 := by
  subst hsp hp
  obtain ⟨s1, h1, hpc1, hsp1, hst1, hm1⟩ :=
    cycle_2nnn s a hp1 hsp16 (by omega) hhi hlo
  obtain ⟨s2, h2, hpc2, hsp2⟩ :=
    cycle_00EE s1 (by omega) (by omega) (by omega) (by rw [hm1, hpc1]; exact hret0)
      (by rw [hm1, hpc1]; exact hret1)
  refine ⟨s1, s2, h1, hpc1, hsp1, ?_, h2, ?_, ?_⟩
  · rw [hst1, Function.update_same]
  · rw [hpc2, hsp1, hst1, Nat.add_sub_cancel, Function.update_same]
  · rw [hsp2, hsp1, Nat.add_sub_cancel]

/-- Witness for `call_return_roundtrip`: the call `0x2300` at `pc = 0x200` and the
return `0x00EE` at `0x300`, stack depth 0. -/
theorem call_return_roundtrip_witness :
    ∃ s1 s2, cycle (sampleAt 0x200 callReturnMemory regsEqual 0 0) = .ok s1 ∧
      s1.pc = 0x300 ∧ s1.sp = 0 + 1 ∧ s1.stack 0 = 0x200 + 2 ∧
      cycle s1 = .ok s2 ∧ s2.pc = 0x200 + 2 ∧ s2.sp = 0 :=
  call_return_roundtrip (sampleAt 0x200 callReturnMemory regsEqual 0 0) 0x200 0x300 0
    rfl (by decide) rfl (by decide) (by decide) (by decide) (by decide) (by decide) (by decide)

/-! ## Timer decay -/

theorem table_1 (s : Chip8) (h : s.opcode / 4096 % 16 = 1) : table s = .ok (op_1nnn s) := by
  unfold table
  simp [mask_top, h]

/-- One cycle on a jump-to-self word: `pc` and memory stay, each timer loses one unless
it is already zero. -/
theorem cycle_jump_self (s : Chip8) (hpc : s.pc + 1 < 4096)
    (hhi : s.memory s.pc = 0x10 + s.pc / 256) (hlo : s.memory (s.pc + 1) = s.pc % 256) :
    ∃ s1, cycle s = .ok s1 ∧ s1.pc = s.pc ∧ s1.memory = s.memory ∧
      s1.delayTimer = s.delayTimer - 1 ∧ s1.soundTimer = s.soundTimer - 1 := by
  have hw : (s.memory s.pc <<< 8 ||| s.memory (s.pc + 1)) % 65536 = 0x1000 + s.pc := by
    rw [hhi, hlo, fetch_word _ _ (by omega)]
    omega
  rw [cycle_of_fetch s hpc, hw, table_1 _ (by simp only []; omega)]
  refine ⟨_, rfl, ?_, ?_, ?_, ?_⟩
  · rw [updateTimers_pc]
    simp only [op_1nnn, nnn_eq]
    omega
  · rw [updateTimers_memory]
    rfl
  · rw [updateTimers_delayTimer]
    rfl
  · rw [updateTimers_soundTimer]
    rfl

/-- C8: when `pc = p`, `p + 1 < 4096`, points at the jump-to-self word `1nnn` with
`nnn = p`, then for every `n`, `n` calls of `cycle` succeed and leave the delay timer
at `max (d - n) 0` and the sound timer at `max (t - n) 0`, where `d` and `t` are the
timers before. -/
theorem cycles_timer_decay (n : Nat) (s : Chip8) (p : Nat) (hp : s.pc = p) (hp1 : p + 1 < 4096)
    (hhi : s.memory p = 0x10 + p / 256) (hlo : s.memory (p + 1) = p % 256) :
    ∃ s', cycles n s = .ok s' ∧
      (s'.delayTimer : Int) = max ((s.delayTimer : Int) - n) 0 ∧
      (s'.soundTimer : Int) = max ((s.soundTimer : Int) - n) 0 := by
  subst hp
  induction n generalizing s with
  | zero =>
    refine ⟨s, rfl, ?_, ?_⟩ <;> simp
  | succ n ih =>
    obtain ⟨s1, h1, hpc1, hm1, hd1, hs1⟩ := cycle_jump_self s hp1 hhi hlo
    obtain ⟨s', h', hd', hs'⟩ :=
      ih s1 (by omega) (by rw [hm1, hpc1]; exact hhi) (by rw [hm1, hpc1]; exact hlo)
    refine ⟨s', by simp only [cycles, h1, h'], ?_, ?_⟩
    · rw [hd', hd1]
      push_cast
      omega
    · rw [hs', hs1]
      push_cast
      omega

/-- Witness for `cycles_timer_decay`: delay timer 3, sound timer 1 and the word
`0x1200` at `pc = 0x200`, four cycles. -/
theorem cycles_timer_decay_witness :
    ∃ s', cycles 4 (sampleAt 0x200 (wordAt200 0x12 0x00) regsEqual 3 1) = .ok s' ∧
      (s'.delayTimer : Int)
        = max (((sampleAt 0x200 (wordAt200 0x12 0x00) regsEqual 3 1).delayTimer : Int)
            - (4 : Nat)) 0 ∧
      (s'.soundTimer : Int)
        = max (((sampleAt 0x200 (wordAt200 0x12 0x00) regsEqual 3 1).soundTimer : Int)
            - (4 : Nat)) 0 :=
  cycles_timer_decay 4 (sampleAt 0x200 (wordAt200 0x12 0x00) regsEqual 3 1) 0x200
    rfl (by decide) (by decide) (by decide)

/-! ## DRW Vx, Vy, n -/

theorem DrawInv_congr {xPos yPos : Nat} {s0 t : Chip8} {done done' : Nat → Nat → Prop}
    (h : ∀ j i, done j i ↔ done' j i) (hinv : DrawInv xPos yPos s0 done t) :
    DrawInv xPos yPos s0 done' t := by
  have e : done = done' := by
    funext j i
    exact propext (h j i)
  rw [← e]
  exact hinv

/-- One round of the inner loop keeps the invariant, adding the pixel `(J, n)`. -/
theorem drawPixel_step {xPos yPos : Nat} {s0 t : Chip8} {done : Nat → Nat → Prop} {J n : Nat}
    (hx : xPos ≤ 56) (hJ : yPos + J < 32) (hn : n < 8)
    (hdone : ∀ j i, done j i → i < 8) (hnot : ¬ done J n)
    (hinv : DrawInv xPos yPos s0 done t) :
    ∃ t', drawPixel xPos yPos (s0.memory (s0.index + J)) J n t = .ok t' ∧
      DrawInv xPos yPos s0 (fun j i => done j i ∨ (j = J ∧ i = n)) t' := by
  obtain ⟨hcov, hunc, hcol, hnocol, hmem, hidx⟩ := hinv
  have hpos : (xPos + n) + (yPos + J) * VIDEO_WIDTH < VIDEO_WIDTH * VIDEO_HEIGHT := by
    simp only [VIDEO_WIDTH, VIDEO_HEIGHT]
    omega
  have hinj : ∀ j i, i < 8 →
      (xPos + n) + (yPos + J) * VIDEO_WIDTH = (xPos + i) + (yPos + j) * VIDEO_WIDTH →
      j = J ∧ i = n := by
    intro j i hi he
    simp only [VIDEO_WIDTH] at he
    omega
  -- the cell of this round has not been touched yet
  have hfresh : t.video ((xPos + n) + (yPos + J) * VIDEO_WIDTH)
      = s0.video ((xPos + n) + (yPos + J) * VIDEO_WIDTH) := by
    apply hunc
    rintro ⟨j, i, hd, _, he⟩
    obtain ⟨rfl, rfl⟩ := hinj j i (hdone j i hd) he
    exact hnot hd
  by_cases hbit : (s0.memory (s0.index + J)).testBit (7 - n) = true
  · -- the sprite pixel is set
    have hpix : (s0.memory (s0.index + J) &&& (0x80 >>> n)) % 256 ≠ 0 :=
      (bit_mask _ _ hn).mpr hbit
    by_cases hon : t.video ((xPos + n) + (yPos + J) * VIDEO_WIDTH) = 0xFFFFFFFF
    · refine ⟨{ setRegister t 15 1 with
          video := Function.update t.video ((xPos + n) + (yPos + J) * VIDEO_WIDTH)
            ((t.video ((xPos + n) + (yPos + J) * VIDEO_WIDTH) ^^^ 0xFFFFFFFF) % 2 ^ 32) },
        by simp only [drawPixel, hpos, hpix, if_true, ne_eq, not_false_eq_true]
           rw [if_pos hon]
           rfl,
        ?_, ?_, ?_, ?_, hmem, hidx⟩
      · rintro p ⟨j, i, hd | ⟨rfl, rfl⟩, hb, rfl⟩
        · have hne : (xPos + i) + (yPos + j) * VIDEO_WIDTH
              ≠ (xPos + n) + (yPos + J) * VIDEO_WIDTH := by
            intro he
            obtain ⟨rfl, rfl⟩ := hinj j i (hdone j i hd) he.symm
            exact hnot hd
          simp only [setRegister, Function.update_noteq hne]
          exact hcov _ ⟨j, i, hd, hb, rfl⟩
        · simp only [setRegister, Function.update_same]
          rw [hfresh]
      · intro p hp
        have hne : p ≠ (xPos + n) + (yPos + J) * VIDEO_WIDTH := by
          rintro rfl
          exact hp ⟨J, n, Or.inr ⟨rfl, rfl⟩, hbit, rfl⟩
        simp only [setRegister, Function.update_noteq hne]
        apply hunc
        rintro ⟨j, i, hd, hb, he⟩
        exact hp ⟨j, i, Or.inl hd, hb, he⟩
      · intro _
        simp only [setRegister, Function.update_same]
      · intro hc
        exact absurd ⟨J, n, Or.inr ⟨rfl, rfl⟩, hbit, hfresh ▸ hon⟩ hc
    · refine ⟨{ t with
          video := Function.update t.video ((xPos + n) + (yPos + J) * VIDEO_WIDTH)
            ((t.video ((xPos + n) + (yPos + J) * VIDEO_WIDTH) ^^^ 0xFFFFFFFF) % 2 ^ 32) },
        by simp only [drawPixel, hpos, hpix, if_true, ne_eq, not_false_eq_true]
           rw [if_neg hon],
        ?_, ?_, ?_, ?_, hmem, hidx⟩
      · rintro p ⟨j, i, hd | ⟨rfl, rfl⟩, hb, rfl⟩
        · have hne : (xPos + i) + (yPos + j) * VIDEO_WIDTH
              ≠ (xPos + n) + (yPos + J) * VIDEO_WIDTH := by
            intro he
            obtain ⟨rfl, rfl⟩ := hinj j i (hdone j i hd) he.symm
            exact hnot hd
          simp only [Function.update_noteq hne]
          exact hcov _ ⟨j, i, hd, hb, rfl⟩
        · simp only [Function.update_same]
          rw [hfresh]
      · intro p hp
        have hne : p ≠ (xPos + n) + (yPos + J) * VIDEO_WIDTH := by
          rintro rfl
          exact hp ⟨J, n, Or.inr ⟨rfl, rfl⟩, hbit, rfl⟩
        simp only [Function.update_noteq hne]
        apply hunc
        rintro ⟨j, i, hd, hb, he⟩
        exact hp ⟨j, i, Or.inl hd, hb, he⟩
      · rintro ⟨j, i, hd | ⟨rfl, rfl⟩, hb, hv⟩
        · exact hcol ⟨j, i, hd, hb, hv⟩
        · exact absurd (hfresh ▸ hv) hon
      · intro hc
        apply hnocol
        rintro ⟨j, i, hd, hb, hv⟩
        exact hc ⟨j, i, Or.inl hd, hb, hv⟩
  · -- the sprite pixel is clear: nothing happens
    have hpix : ¬ (s0.memory (s0.index + J) &&& (0x80 >>> n)) % 256 ≠ 0 :=
      fun h => hbit ((bit_mask _ _ hn).mp h)
    refine ⟨t, by simp only [drawPixel, hpos, hpix, if_true, if_false], ?_, ?_, ?_, ?_, hmem, hidx⟩
    · rintro p ⟨j, i, hd | ⟨rfl, rfl⟩, hb, rfl⟩
      · exact hcov _ ⟨j, i, hd, hb, rfl⟩
      · exact absurd hb hbit
    · intro p hp
      apply hunc
      rintro ⟨j, i, hd, hb, he⟩
      exact hp ⟨j, i, Or.inl hd, hb, he⟩
    · rintro ⟨j, i, hd | ⟨rfl, rfl⟩, hb, hv⟩
      · exact hcol ⟨j, i, hd, hb, hv⟩
      · exact absurd hb hbit
    · intro hc
      apply hnocol
      rintro ⟨j, i, hd, hb, hv⟩
      exact hc ⟨j, i, Or.inl hd, hb, hv⟩

/-- The inner loop of `op_Dxyn` on row `J`, run for `n` columns. -/
theorem drawPixel_loop {xPos yPos : Nat} {s0 t : Chip8} {J : Nat}
    (hx : xPos ≤ 56) (hJ : yPos + J < 32)
    (hinv : DrawInv xPos yPos s0 (fun j i => j < J ∧ i < 8) t) (n : Nat) (hn : n ≤ 8) :
    ∃ t', forLoop n (drawPixel xPos yPos (s0.memory (s0.index + J)) J) t = .ok t' ∧
      DrawInv xPos yPos s0 (fun j i => (j < J ∧ i < 8) ∨ (j = J ∧ i < n)) t' := by
  induction n with
  | zero =>
    refine ⟨t, rfl, DrawInv_congr (fun j i => ?_) hinv⟩
    constructor
    · intro h
      exact Or.inl h
    · rintro (h | ⟨_, h⟩)
      · exact h
      · omega
  | succ n ih =>
    obtain ⟨t1, h1, hinv1⟩ := ih (by omega)
    obtain ⟨t', h', hinv'⟩ := drawPixel_step hx hJ (show n < 8 by omega)
      (by
        rintro j i (⟨_, h⟩ | ⟨_, h⟩)
        · exact h
        · omega)
      (by
        rintro (⟨h, _⟩ | ⟨_, h⟩)
        · omega
        · omega)
      hinv1
    refine ⟨t', by rw [forLoop_succ_ok h1]; exact h', DrawInv_congr (fun j i => ?_) hinv'⟩
    constructor
    · rintro ((h | ⟨h1, h2⟩) | ⟨h1, h2⟩)
      · exact Or.inl h
      · exact Or.inr ⟨h1, by omega⟩
      · exact Or.inr ⟨h1, by omega⟩
    · rintro (h | ⟨h1, h2⟩)
      · exact Or.inl (Or.inl h)
      · by_cases hi : i = n
        · exact Or.inr ⟨h1, hi⟩
        · exact Or.inl (Or.inr ⟨h1, by omega⟩)

/-- One round of the outer loop of `op_Dxyn`: row `J` is drawn. -/
theorem drawRow_step {xPos yPos : Nat} {s0 t : Chip8} {J : Nat}
    (hx : xPos ≤ 56) (hJ : yPos + J < 32) (hm : s0.index + J < 4096)
    (hinv : DrawInv xPos yPos s0 (fun j i => j < J ∧ i < 8) t) :
    ∃ t', drawRow xPos yPos J t = .ok t' ∧
      DrawInv xPos yPos s0 (fun j i => j < J + 1 ∧ i < 8) t' := by
  obtain ⟨t', h', hinv'⟩ := drawPixel_loop hx hJ hinv 8 (le_refl 8)
  have hidx : t.index = s0.index := hinv.2.2.2.2.2
  have hmem : t.memory = s0.memory := hinv.2.2.2.2.1
  have hlt : s0.index + J < MEMORY_SIZE := hm
  refine ⟨t', ?_, DrawInv_congr (fun j i => ?_) hinv'⟩
  · simp only [drawRow, readMemory, hidx, hmem, hlt, if_true]
    exact h'
  · constructor
    · rintro (⟨h1, h2⟩ | ⟨h1, h2⟩)
      · exact ⟨by omega, h2⟩
      · exact ⟨by omega, h2⟩
    · rintro ⟨h1, h2⟩
      by_cases hj : j = J
      · exact Or.inr ⟨hj, h2⟩
      · exact Or.inl ⟨by omega, h2⟩

/-- The outer loop of `op_Dxyn`, run for `J` rows. -/
theorem drawRow_loop {xPos yPos : Nat} {s0 t : Chip8} (N : Nat)
    (hx : xPos ≤ 56) (hy : yPos + N ≤ 32) (hm : s0.index + N ≤ 4096)
    (hinv : DrawInv xPos yPos s0 (fun j i => j < 0 ∧ i < 8) t) (J : Nat) (hJ : J ≤ N) :
    ∃ t', forLoop J (drawRow xPos yPos) t = .ok t' ∧
      DrawInv xPos yPos s0 (fun j i => j < J ∧ i < 8) t' := by
  induction J with
  | zero => exact ⟨t, rfl, hinv⟩
  | succ J ih =>
    obtain ⟨t1, h1, hinv1⟩ := ih (by omega)
    obtain ⟨t', h', hinv'⟩ := drawRow_step hx (show yPos + J < 32 by omega)
      (show s0.index + J < 4096 by omega) hinv1
    exact ⟨t', by rw [forLoop_succ_ok h1]; exact h', hinv'⟩

/-- C3: for a draw word with height `N`, `index + N ≤ 4096`, `xPos ≤ 56` and
`yPos + N ≤ 32`, on a framebuffer whose cells are 0 or `0xFFFFFFFF`, `op_Dxyn` succeeds;
afterwards register 15 is 1 exactly when some set sprite bit (row `j < N`, column `i < 8`,
bit `7 - i` of `memory[index + j]`) lies over a cell that was `0xFFFFFFFF`, and is 0
otherwise; every cell under a set sprite bit is toggled and every other cell is
unchanged. -/
theorem op_Dxyn_spec (s : Chip8) (N xPos yPos : Nat) (hN : N = s.opcode % 16)
    (hxP : xPos = s.registers (Vx s) % 64) (hyP : yPos = s.registers (Vy s) % 32)
    (hvid : ∀ p, p < 2048 → s.video p = 0 ∨ s.video p = 0xFFFFFFFF)
    (hm : s.index + N ≤ 4096) (hx : xPos ≤ 56) (hy : yPos + N ≤ 32) :
    ∃ s', op_Dxyn s = .ok s' ∧
      (s'.registers 15 = 1 ↔
        ∃ j i, j < N ∧ i < 8 ∧ (s.memory (s.index + j)).testBit (7 - i) = true ∧
          s.video ((xPos + i) + (yPos + j) * 64) = 0xFFFFFFFF) ∧
      ((¬ ∃ j i, j < N ∧ i < 8 ∧ (s.memory (s.index + j)).testBit (7 - i) = true ∧
          s.video ((xPos + i) + (yPos + j) * 64) = 0xFFFFFFFF) → s'.registers 15 = 0) ∧
      (∀ p, (∃ j i, j < N ∧ i < 8 ∧ (s.memory (s.index + j)).testBit (7 - i) = true ∧
          p = (xPos + i) + (yPos + j) * 64) →
        s'.video p = if s.video p = 0xFFFFFFFF then 0 else 0xFFFFFFFF) ∧
      (∀ p, (¬ ∃ j i, j < N ∧ i < 8 ∧ (s.memory (s.index + j)).testBit (7 - i) = true ∧
          p = (xPos + i) + (yPos + j) * 64) →
        s'.video p = s.video p) := by
  have hinit : DrawInv xPos yPos s (fun j i => j < 0 ∧ i < 8) (setRegister s 15 0) := by
    refine ⟨?_, fun _ _ => rfl, ?_, fun _ => ?_, rfl, rfl⟩
    · rintro p ⟨j, i, ⟨h, _⟩, _⟩
      omega
    · rintro ⟨j, i, ⟨h, _⟩, _⟩
      omega
    · simp only [setRegister, Function.update_same]
  obtain ⟨s', h', hcov, hunc, hcol, hnocol, _, _⟩ := drawRow_loop N hx hy hm hinit N (le_refl N)
  have hh : (s.opcode &&& 0x000F) % 256 = N := by
    rw [mask_n, hN]
    omega
  have hxx : (s.registers (Vx s) % VIDEO_WIDTH) % 256 = xPos := by
    rw [hxP]
    simp only [VIDEO_WIDTH]
    omega
  have hyy : (s.registers (Vy s) % VIDEO_HEIGHT) % 256 = yPos := by
    rw [hyP]
    simp only [VIDEO_HEIGHT]
    omega
  refine ⟨s', by simp only [op_Dxyn, hh, hxx, hyy]; exact h', ⟨?_, ?_⟩, ?_, ?_, ?_⟩
  · intro h1
    by_contra hc
    have h0 := hnocol (fun ⟨j, i, ⟨hj, hi⟩, hb, hv⟩ => hc ⟨j, i, hj, hi, hb, hv⟩)
    omega
  · rintro ⟨j, i, hj, hi, hb, hv⟩
    exact hcol ⟨j, i, ⟨hj, hi⟩, hb, hv⟩
  · intro hc
    exact hnocol (fun ⟨j, i, ⟨hj, hi⟩, hb, hv⟩ => hc ⟨j, i, hj, hi, hb, hv⟩)
  · rintro p ⟨j, i, hj, hi, hb, rfl⟩
    rw [hcov _ ⟨j, i, ⟨hj, hi⟩, hb, rfl⟩]
    have hp : (xPos + i) + (yPos + j) * 64 < 2048 := by omega
    rcases hvid _ hp with h | h
    · simp only [VIDEO_WIDTH, h]
      decide
    · simp only [VIDEO_WIDTH, h]
      decide
  · intro p hp
    exact hunc p (fun ⟨j, i, ⟨hj, hi⟩, hb, he⟩ => hp ⟨j, i, hj, hi, hb, he⟩)

/-- Witness for `op_Dxyn_spec`: the one-row sprite `0xF0` drawn at `(5, 5)` on a dark
screen. -/
theorem op_Dxyn_spec_witness :
    (1 = sampleDraw.opcode % 16 ∧ 5 = sampleDraw.registers (Vx sampleDraw) % 64 ∧
      5 = sampleDraw.registers (Vy sampleDraw) % 32 ∧
      (∀ p, p < 2048 → sampleDraw.video p = 0 ∨ sampleDraw.video p = 0xFFFFFFFF) ∧
      sampleDraw.index + 1 ≤ 4096 ∧ 5 ≤ 56 ∧ 5 + 1 ≤ 32) ∧
    ∃ s', op_Dxyn sampleDraw = .ok s' ∧
      (s'.registers 15 = 1 ↔
        ∃ j i, j < 1 ∧ i < 8 ∧
          (sampleDraw.memory (sampleDraw.index + j)).testBit (7 - i) = true ∧
          sampleDraw.video ((5 + i) + (5 + j) * 64) = 0xFFFFFFFF) ∧
      ((¬ ∃ j i, j < 1 ∧ i < 8 ∧
          (sampleDraw.memory (sampleDraw.index + j)).testBit (7 - i) = true ∧
          sampleDraw.video ((5 + i) + (5 + j) * 64) = 0xFFFFFFFF) → s'.registers 15 = 0) ∧
      (∀ p, (∃ j i, j < 1 ∧ i < 8 ∧
          (sampleDraw.memory (sampleDraw.index + j)).testBit (7 - i) = true ∧
          p = (5 + i) + (5 + j) * 64) →
        s'.video p = if sampleDraw.video p = 0xFFFFFFFF then 0 else 0xFFFFFFFF) ∧
      (∀ p, (¬ ∃ j i, j < 1 ∧ i < 8 ∧
          (sampleDraw.memory (sampleDraw.index + j)).testBit (7 - i) = true ∧
          p = (5 + i) + (5 + j) * 64) →
        s'.video p = sampleDraw.video p) :=
  ⟨⟨by decide, by decide, by decide, fun _ _ => Or.inl rfl, by decide, by decide, by decide⟩,
    op_Dxyn_spec sampleDraw 1 5 5 (by decide) (by decide) (by decide) (fun _ _ => Or.inl rfl)
      (by decide) (by decide) (by decide)⟩

/-! ## JP V0, nnn -/

/-- C13: for every word `Bnnn` (with `n` its low 12 bits `nnn`), `op_Bnnn` sets `pc = (V0 + n) mod 4096`: the
12-bit mask is applied to the whole sum of register 0 and the immediate. -/
theorem op_Bnnn_spec (s : Chip8) (n : Nat) (hop : s.opcode % 4096 = n) :
    (op_Bnnn s).pc = (s.registers 0 + n) % 4096 := by
  subst hop
  simp only [op_Bnnn, mask_nnn]
  omega

/-- Witness for `op_Bnnn_spec`: `V0 = 0xFF` and the word `0xBFFF` give `pc = 0x0FE`. -/
theorem op_Bnnn_spec_witness :
    (op_Bnnn (sample 0xBFFF regsFF)).pc = ((sample 0xBFFF regsFF).registers 0 + 0xFFF) % 4096 ∧
      (op_Bnnn (sample 0xBFFF regsFF)).pc = 0x0FE :=
  ⟨op_Bnnn_spec (sample 0xBFFF regsFF) 0xFFF (by decide), by decide⟩

/-! ## LD F, Vx -/

/-- C16 (as amended): with `v < 256` the value of register X, `op_Fx29` sets
`index = 0x50 + 5 * v`; for `v < 16` this is `0x50 + 5 * (v mod 16)` and
`index .. index + 4` lies inside the font table `0x050..0x09F`. -/
theorem op_Fx29_spec (s : Chip8) (v : Nat) (hv : s.registers (Vx s) = v) (hv8 : v < 256) :
    (op_Fx29 s).index = 0x50 + 5 * v ∧
      (v < 16 → (op_Fx29 s).index = 0x50 + 5 * (v % 16) ∧
        0x50 ≤ (op_Fx29 s).index ∧ (op_Fx29 s).index + 4 ≤ 0x9F) := by
  subst hv
  have h : (op_Fx29 s).index = 0x50 + 5 * s.registers (Vx s) := by
    simp only [op_Fx29, FONT_START_ADDRESS]
    omega
  refine ⟨h, fun h16 => ?_⟩
  rw [h, Nat.mod_eq_of_lt h16]
  omega

/-- Witness for `op_Fx29_spec`: `V0 = 5` with the word `0xF029`. -/
theorem op_Fx29_spec_witness :
    (op_Fx29 (sample 0xF029 regsEqual)).index = 0x50 + 5 * 5 ∧
      (5 < 16 → (op_Fx29 (sample 0xF029 regsEqual)).index = 0x50 + 5 * (5 % 16) ∧
        0x50 ≤ (op_Fx29 (sample 0xF029 regsEqual)).index ∧
        (op_Fx29 (sample 0xF029 regsEqual)).index + 4 ≤ 0x9F) :=
  op_Fx29_spec (sample 0xF029 regsEqual) 5 (by decide) (by decide)

/-- C16 (counterexample): with `V0 = 16` and the word `0xF029`, `op_Fx29` sets
`index = 0xA0`, not `0x50 + 5 * (16 mod 16) = 0x50`, and `0xA0` is past the font table. -/
theorem op_Fx29_low_nibble_counterexample :
    Vx (sample 0xF029 regs16) = 0 ∧ (sample 0xF029 regs16).registers 0 = 16 ∧
      (op_Fx29 (sample 0xF029 regs16)).index = 0xA0 ∧
      (op_Fx29 (sample 0xF029 regs16)).index ≠ 0x50 + 5 * (16 % 16) ∧
      ¬ (op_Fx29 (sample 0xF029 regs16)).index + 4 ≤ 0x9F := by
  decide

/-! ## A two-instruction program -/

theorem table_6 (s : Chip8) (h : s.opcode / 4096 % 16 = 6) : table s = .ok (op_6xkk s) := by
  unfold table
  simp [mask_top, h]

/-- One cycle on a load word `6xkk`: register X receives `kk`, `pc` moves to the next
word, memory stays. -/
theorem cycle_6xkk (s : Chip8) (X kk : Nat) (hpc : s.pc + 1 < 4096) (hX : X < 16)
    (hkk : kk < 256) (hhi : s.memory s.pc = 0x60 + X) (hlo : s.memory (s.pc + 1) = kk) :
    ∃ s1, cycle s = .ok s1 ∧ s1.pc = s.pc + 2 ∧ s1.memory = s.memory ∧
      s1.registers = Function.update s.registers X kk := by
  have hw : (s.memory s.pc <<< 8 ||| s.memory (s.pc + 1)) % 65536 = (0x60 + X) * 256 + kk := by
    rw [hhi, hlo, fetch_word _ _ hkk]
    omega
  rw [cycle_of_fetch s hpc, hw, table_6 _ (by simp only []; omega)]
  refine ⟨_, rfl, ?_, ?_, ?_⟩
  · rw [updateTimers_pc]
    rfl
  · rw [updateTimers_memory]
    rfl
  · rw [updateTimers_registers]
    simp only [op_6xkk, setRegister, Vx_eq, byte_eq]
    have e1 : ((0x60 + X) * 256 + kk) / 256 % 16 = X := by omega
    have e2 : ((0x60 + X) * 256 + kk) % 256 = kk := by omega
    rw [e1, e2]

/-- One cycle on a jump word `1nnn`: `pc` becomes `nnn`, memory and registers stay. -/
theorem cycle_1nnn (s : Chip8) (a : Nat) (hpc : s.pc + 1 < 4096) (ha : a < 4096)
    (hhi : s.memory s.pc = 0x10 + a / 256) (hlo : s.memory (s.pc + 1) = a % 256) :
    ∃ s1, cycle s = .ok s1 ∧ s1.pc = a ∧ s1.memory = s.memory ∧
      s1.registers = s.registers := by
  have hw : (s.memory s.pc <<< 8 ||| s.memory (s.pc + 1)) % 65536 = 0x1000 + a := by
    rw [hhi, hlo, fetch_word _ _ (by omega)]
    omega
  rw [cycle_of_fetch s hpc, hw, table_1 _ (by simp only []; omega)]
  refine ⟨_, rfl, ?_, ?_, ?_⟩
  · rw [updateTimers_pc]
    simp only [op_1nnn, nnn_eq]
    omega
  · rw [updateTimers_memory]
    rfl
  · rw [updateTimers_registers]
    rfl

/-- Once `pc` sits on the jump-to-self at `0x202`, any number of cycles keeps it there
and keeps register 0. -/
theorem cycles_at_jump (k : Nat) (s : Chip8) (hpc : s.pc = 0x202) (h2 : s.memory 0x202 = 0x12)
    (h3 : s.memory 0x203 = 0x02) (hr : s.registers 0 = 10) :
    ∃ s', cycles k s = .ok s' ∧ s'.registers 0 = 10 ∧ s'.pc = 0x202 := by
  induction k generalizing s with
  | zero => exact ⟨s, rfl, hr, hpc⟩
  | succ k ih =>
    obtain ⟨s1, h1, hpc1, hm1, hr1⟩ := cycle_1nnn s 0x202 (by omega) (by omega)
      (by rw [hpc]; exact h2) (by rw [hpc]; exact h3)
    obtain ⟨s', h', hr', hpc'⟩ := ih s1 hpc1 (by rw [hm1]; exact h2) (by rw [hm1]; exact h3)
      (by rw [hr1]; exact hr)
    exact ⟨s', by simp only [cycles, h1, h'], hr', hpc'⟩

/-- Loading a four-byte ROM writes the bytes at `0x200..0x203` and nothing else. -/
theorem load_ROM_four (s : Chip8) (b0 b1 b2 b3 : Nat) :
    ∃ s0, load_ROM s (some [b0, b1, b2, b3]) = .ok s0 ∧ s0.pc = s.pc ∧
      s0.registers = s.registers ∧ s0.memory 0x200 = b0 % 256 ∧ s0.memory 0x201 = b1 % 256 ∧
      s0.memory 0x202 = b2 % 256 ∧ s0.memory 0x203 = b3 % 256 := by
  refine ⟨{ s with memory := (Function.update (Function.update (Function.update
      (Function.update s.memory 0x200 (b0 % 256)) 0x201 (b1 % 256)) 0x202 (b2 % 256))
      0x203 (b3 % 256)) }, ?_, rfl, rfl, ?_, ?_, ?_, ?_⟩
  · rfl
  all_goals simp [Function.update]

/-- C11: a freshly constructed machine, whatever its uninitialised members hold, loaded
with the program `60 0A 12 02` starts at `pc = 0x200`; its first two cycles succeed and
leave register 0 = 10 and `pc = 0x202`, the second cycle leaving `pc` as it found it; and
for every `k`, `2 + k` cycles succeed and leave register 0 = 10 and `pc = 0x202`. -/
theorem program_loop (index opcode sp delayTimer soundTimer : Nat) (randGen : Nat → Nat) :
    ∃ s0, load_ROM (new index opcode sp delayTimer soundTimer randGen)
        (some [0x60, 0x0A, 0x12, 0x02]) = .ok s0 ∧ s0.pc = 0x200 ∧
      (∃ s1 s2, cycle s0 = .ok s1 ∧ cycle s1 = .ok s2 ∧ s2.registers 0 = 10 ∧
        s2.pc = 0x202 ∧ s2.pc = s1.pc) ∧
      ∀ k, ∃ s', cycles (2 + k) s0 = .ok s' ∧ s'.registers 0 = 10 ∧ s'.pc = 0x202 := by
  obtain ⟨s0, hl, hpc0, -, m0, m1, m2, m3⟩ :=
    load_ROM_four (new index opcode sp delayTimer soundTimer randGen) 0x60 0x0A 0x12 0x02
  have hpc : s0.pc = 0x200 := hpc0
  obtain ⟨s1, h1, hpc1, hm1, hr1⟩ := cycle_6xkk s0 0 0x0A (by omega) (by omega) (by omega)
    (by rw [hpc]; exact m0) (by rw [hpc]; exact m1)
  have hr10 : s1.registers 0 = 10 := by rw [hr1, Function.update_same]
  have hpc1' : s1.pc = 0x202 := by omega
  obtain ⟨s2, h2, hpc2, hm2, hr2⟩ := cycle_1nnn s1 0x202 (by omega) (by omega)
    (by rw [hpc1', hm1]; exact m2) (by rw [hpc1', hm1]; exact m3)
  refine ⟨s0, hl, hpc, ⟨s1, s2, h1, h2, by rw [hr2]; exact hr10, hpc2, by omega⟩, fun k => ?_⟩
  obtain ⟨s', h', hr', hpc'⟩ := cycles_at_jump k s2 hpc2 (by rw [hm2, hm1]; exact m2)
    (by rw [hm2, hm1]; exact m3) (by rw [hr2]; exact hr10)
  refine ⟨s', ?_, hr', hpc'⟩
  rw [show 2 + k = k + 1 + 1 by omega]
  simp only [cycles, h1, h2, h']

/-! ## LD Vx, K -/

theorem firstKey_none (s : Chip8) (n i : Nat)
    (h : ∀ j, i ≤ j → j < i + n → s.keypad j = 0) : firstKey s n i = none := by
  induction n generalizing i with
  | zero => rfl
  | succ n ih =>
    have h0 : s.keypad i = 0 := h i (le_refl i) (by omega)
    simp only [firstKey, h0, ne_eq, not_true_eq_false, if_false]
    exact ih (i + 1) (fun j hj1 hj2 => h j (by omega) (by omega))

theorem firstKey_some (s : Chip8) (n i k : Nat) (hik : i ≤ k) (hkn : k < i + n)
    (hk : s.keypad k ≠ 0) (h : ∀ j, i ≤ j → j < k → s.keypad j = 0) :
    firstKey s n i = some k := by
  induction n generalizing i with
  | zero => omega
  | succ n ih =>
    by_cases hi : i = k
    · subst hi
      simp only [firstKey, hk, ne_eq, not_false_eq_true, if_true]
    · have h0 : s.keypad i = 0 := h i (le_refl i) (by omega)
      simp only [firstKey, h0, ne_eq, not_true_eq_false, if_false]
      exact ih (i + 1) (by omega) (by omega) (fun j hj1 hj2 => h j (by omega) hj2)

theorem table_Fx0A (s : Chip8) (h1 : s.opcode / 4096 % 16 = 15) (h2 : s.opcode % 256 = 0x0A) :
    table s = .ok (op_Fx0A s) := by
  unfold table tableF
  simp [mask_top, mask_kk, h1, h2]

/-- C12: when the word at `pc = p` (`p + 1 < 4096`) is `Fx0A`: if none of
`keypad[0..14]` is pressed (whatever `keypad[15]` holds) one `cycle` succeeds and leaves
`pc = p` and the registers unchanged; and if `k < 15` is the lowest pressed key one
`cycle` succeeds and leaves `pc = p + 2` and register X equal to `k`. -/
theorem cycle_Fx0A (s : Chip8) (p X : Nat) (hp : s.pc = p) (hp1 : p + 1 < 4096) (hX : X < 16)
    (hhi : s.memory p = 0xF0 + X) (hlo : s.memory (p + 1) = 0x0A) :
    ((∀ k, k < 15 → s.keypad k = 0) →
      ∃ s', cycle s = .ok s' ∧ s'.pc = p ∧ s'.registers = s.registers) ∧
    (∀ k, k < 15 → s.keypad k ≠ 0 → (∀ j, j < k → s.keypad j = 0) →
      ∃ s', cycle s = .ok s' ∧ s'.pc = p + 2 ∧ s'.registers X = k) := by
  subst hp
  have hw : (s.memory s.pc <<< 8 ||| s.memory (s.pc + 1)) % 65536 = (0xF0 + X) * 256 + 0x0A := by
    rw [hhi, hlo, fetch_word _ _ (by omega)]
    omega
  rw [cycle_of_fetch s hp1, hw, table_Fx0A _ (by simp only []; omega) (by simp only []; omega)]
  generalize ht : ({ s with opcode := (0xF0 + X) * 256 + 0x0A, pc := s.pc + 2 } : Chip8) = t
  have hop : t.opcode = (0xF0 + X) * 256 + 0x0A := by rw [← ht]
  have hpc : t.pc = s.pc + 2 := by rw [← ht]
  have hr : t.registers = s.registers := by rw [← ht]
  have hk : t.keypad = s.keypad := by rw [← ht]
  have hx : Vx t = X := by
    rw [Vx_eq, hop]
    omega
  constructor
  · intro hnone
    have hf : firstKey t 15 0 = none :=
      firstKey_none t 15 0 (fun j _ hj => by rw [hk]; exact hnone j (by omega))
    refine ⟨_, rfl, ?_, ?_⟩
    · rw [updateTimers_pc]
      simp only [op_Fx0A, hf, hpc]
      omega
    · rw [updateTimers_registers]
      simp only [op_Fx0A, hf, hr]
  · intro k hk15 hpressed hlow
    have hf : firstKey t 15 0 = some k :=
      firstKey_some t 15 0 k (Nat.zero_le k) (by omega) (by rw [hk]; exact hpressed)
        (fun j _ hj => by rw [hk]; exact hlow j hj)
    refine ⟨_, rfl, ?_, ?_⟩
    · rw [updateTimers_pc]
      simp only [op_Fx0A, hf, setRegister, hpc]
    · rw [updateTimers_registers]
      simp only [op_Fx0A, hf, setRegister, hx, Function.update_same]

/-- Witness for `cycle_Fx0A`: the word `0xF30A` at `pc = 0x200`; with only key 15
pressed the machine stays at `0x200`, with keys 4, 9 and 15 pressed register 3
receives 4. -/
theorem cycle_Fx0A_witness :
    (∃ s', cycle (sampleKeys keysOnly15) = .ok s' ∧ s'.pc = 0x200 ∧
      s'.registers = (sampleKeys keysOnly15).registers) ∧
    (∃ s', cycle (sampleKeys keys4and9) = .ok s' ∧ s'.pc = 0x200 + 2 ∧ s'.registers 3 = 4) :=
  ⟨(cycle_Fx0A (sampleKeys keysOnly15) 0x200 3 rfl (by decide) (by decide) (by decide)
      (by decide)).1 (by decide),
    (cycle_Fx0A (sampleKeys keys4and9) 0x200 3 rfl (by decide) (by decide) (by decide)
      (by decide)).2 4 (by decide) (by decide) (by decide)⟩

/-! ## Loops: what a relation or a fault of the body gives for the loop -/

theorem forLoop_ok_rel {σ : Type} {R : σ → σ → Prop} (hrefl : ∀ s, R s s)
    (htrans : ∀ a b c, R a b → R b c → R a c) {body : Nat → σ → Except Fault σ} (n : Nat)
    (hbody : ∀ i, i < n → ∀ t t', body i t = .ok t' → R t t') {s s' : σ}
    (h : forLoop n body s = .ok s') : R s s' := by
  induction n generalizing s' with
  | zero =>
    simp only [forLoop, Except.ok.injEq] at h
    rw [← h]
    exact hrefl s
  | succ n ih =>
    simp only [forLoop] at h
    cases hn : forLoop n body s with
    | error e =>
      rw [hn] at h
      cases h
    | ok s1 =>
      rw [hn] at h
      exact htrans _ _ _ (ih (fun i hi => hbody i (by omega)) hn) (hbody n (by omega) _ _ h)

theorem forLoop_error {σ : Type} {P : Fault → Prop} {body : Nat → σ → Except Fault σ}
    (hbody : ∀ i t e, body i t = .error e → P e) (n : Nat) {s : σ} {e : Fault}
    (h : forLoop n body s = .error e) : P e := by
  induction n generalizing e with
  | zero => simp only [forLoop] at h; cases h
  | succ n ih =>
    simp only [forLoop] at h
    cases hn : forLoop n body s with
    | error e1 =>
      rw [hn] at h
      simp only [Except.error.injEq] at h
      rw [← h]
      exact ih hn
    | ok s1 =>
      rw [hn] at h
      exact hbody n s1 e h

/-! ## The faults of the handlers are array faults -/

theorem readMemory_error {s : Chip8} {a : Nat} {e : Fault} (h : readMemory s a = .error e) :
    ∀ w, e ≠ .badFunctionCall w := by
  unfold readMemory at h
  split_ifs at h
  cases h
  intro w hw
  cases hw

theorem writeMemory_error {s : Chip8} {a v : Nat} {e : Fault}
    (h : writeMemory s a v = .error e) : ∀ w, e ≠ .badFunctionCall w := by
  unfold writeMemory at h
  split_ifs at h
  cases h
  intro w hw
  cases hw

theorem readStack_error {s : Chip8} {i : Nat} {e : Fault} (h : readStack s i = .error e) :
    ∀ w, e ≠ .badFunctionCall w := by
  unfold readStack at h
  split_ifs at h
  cases h
  intro w hw
  cases hw

theorem writeStack_error {s : Chip8} {i v : Nat} {e : Fault}
    (h : writeStack s i v = .error e) : ∀ w, e ≠ .badFunctionCall w := by
  unfold writeStack at h
  split_ifs at h
  cases h
  intro w hw
  cases hw

theorem readKeypad_error {s : Chip8} {k : Nat} {e : Fault} (h : readKeypad s k = .error e) :
    ∀ w, e ≠ .badFunctionCall w := by
  unfold readKeypad at h
  split_ifs at h
  cases h
  intro w hw
  cases hw

theorem op_00EE_error {s : Chip8} {e : Fault} (h : op_00EE s = .error e) :
    ∀ w, e ≠ .badFunctionCall w := by
  simp only [op_00EE] at h
  split at h
  · cases h
  · rename_i e1 he
    cases h
    exact readStack_error he

theorem op_2nnn_error {s : Chip8} {e : Fault} (h : op_2nnn s = .error e) :
    ∀ w, e ≠ .badFunctionCall w := by
  simp only [op_2nnn] at h
  split at h
  · cases h
  · rename_i e1 he
    cases h
    exact writeStack_error he

theorem op_Ex9E_error {s : Chip8} {e : Fault} (h : op_Ex9E s = .error e) :
    ∀ w, e ≠ .badFunctionCall w := by
  simp only [op_Ex9E] at h
  split at h
  · cases h
  · rename_i e1 he
    cases h
    exact readKeypad_error he

theorem op_ExA1_error {s : Chip8} {e : Fault} (h : op_ExA1 s = .error e) :
    ∀ w, e ≠ .badFunctionCall w := by
  simp only [op_ExA1] at h
  split at h
  · cases h
  · rename_i e1 he
    cases h
    exact readKeypad_error he

theorem drawPixel_error {xPos yPos b j i : Nat} {s : Chip8} {e : Fault}
    (h : drawPixel xPos yPos b j i s = .error e) : ∀ w, e ≠ .badFunctionCall w := by
  simp only [drawPixel] at h
  split_ifs at h
  cases h
  intro w hw
  cases hw

theorem drawRow_error {xPos yPos j : Nat} {s : Chip8} {e : Fault}
    (h : drawRow xPos yPos j s = .error e) : ∀ w, e ≠ .badFunctionCall w := by
  simp only [drawRow] at h
  split at h
  · exact forLoop_error (fun _ _ _ hb => drawPixel_error hb) 8 h
  · rename_i e1 he
    cases h
    exact readMemory_error he

theorem op_Dxyn_error {s : Chip8} {e : Fault} (h : op_Dxyn s = .error e) :
    ∀ w, e ≠ .badFunctionCall w :=
  forLoop_error (fun _ _ _ hb => drawRow_error hb) _ h

theorem op_Fx33_error {s : Chip8} {e : Fault} (h : op_Fx33 s = .error e) :
    ∀ w, e ≠ .badFunctionCall w := by
  simp only [op_Fx33] at h
  split at h
  · rename_i e1 he
    cases h
    exact writeMemory_error he
  · split at h
    · rename_i e1 he
      cases h
      exact writeMemory_error he
    · exact writeMemory_error h

theorem op_Fx55_error {s : Chip8} {e : Fault} (h : op_Fx55 s = .error e) :
    ∀ w, e ≠ .badFunctionCall w :=
  forLoop_error (fun _ _ _ hb => writeMemory_error hb) _ h

theorem op_Fx65_error {s : Chip8} {e : Fault} (h : op_Fx65 s = .error e) :
    ∀ w, e ≠ .badFunctionCall w := by
  refine forLoop_error (P := fun e => ∀ w, e ≠ Fault.badFunctionCall w)
    (fun i t e1 hb => ?_) _ h
  simp only at hb
  split at hb
  · cases hb
  · rename_i e2 he
    cases hb
    exact readMemory_error he

/-! ## Dispatch -/

/-- The dispatch written with quotients and remainders of the word. -/
theorem table_eq (s : Chip8) :
    table s =
      if s.opcode / 4096 % 16 = 0 then
        (if s.opcode % 16 = 0 then .ok (op_00E0 s)
         else if s.opcode % 16 = 14 then op_00EE s
         else .error (.badFunctionCall s.opcode))
      else if s.opcode / 4096 % 16 = 1 then .ok (op_1nnn s)
      else if s.opcode / 4096 % 16 = 2 then op_2nnn s
      else if s.opcode / 4096 % 16 = 3 then .ok (op_3xkk s)
      else if s.opcode / 4096 % 16 = 4 then .ok (op_4xkk s)
      else if s.opcode / 4096 % 16 = 5 then .ok (op_5xy0 s)
      else if s.opcode / 4096 % 16 = 6 then .ok (op_6xkk s)
      else if s.opcode / 4096 % 16 = 7 then .ok (op_7xkk s)
      else if s.opcode / 4096 % 16 = 8 then table8 s
      else if s.opcode / 4096 % 16 = 9 then .ok (op_9xy0 s)
      else if s.opcode / 4096 % 16 = 10 then .ok (op_Annn s)
      else if s.opcode / 4096 % 16 = 11 then .ok (op_Bnnn s)
      else if s.opcode / 4096 % 16 = 12 then .ok (op_Cxkk s)
      else if s.opcode / 4096 % 16 = 13 then op_Dxyn s
      else if s.opcode / 4096 % 16 = 14 then tableE s
      else tableF s := by
  unfold table table0
  simp only [mask_top, mask_n]

theorem table8_eq (s : Chip8) :
    table8 s =
      if s.opcode % 16 = 0 then .ok (op_8xy0 s)
      else if s.opcode % 16 = 1 then .ok (op_8xy1 s)
      else if s.opcode % 16 = 2 then .ok (op_8xy2 s)
      else if s.opcode % 16 = 3 then .ok (op_8xy3 s)
      else if s.opcode % 16 = 4 then .ok (op_8xy4 s)
      else if s.opcode % 16 = 5 then .ok (op_8xy5 s)
      else if s.opcode % 16 = 6 then .ok (op_8xy6 s)
      else if s.opcode % 16 = 7 then .ok (op_8xy7 s)
      else if s.opcode % 16 = 14 then .ok (op_8xyE s)
      else .error (.badFunctionCall s.opcode) := by
  unfold table8
  simp only [mask_n]

theorem tableE_eq (s : Chip8) :
    tableE s =
      if s.opcode % 16 = 1 then op_ExA1 s
      else if s.opcode % 16 = 14 then op_Ex9E s
      else .error (.badFunctionCall s.opcode) := by
  unfold tableE
  simp only [mask_n]

theorem tableF_eq (s : Chip8) :
    tableF s =
      if s.opcode % 256 = 0x07 then .ok (op_Fx07 s)
      else if s.opcode % 256 = 0x0A then .ok (op_Fx0A s)
      else if s.opcode % 256 = 0x15 then .ok (op_Fx15 s)
      else if s.opcode % 256 = 0x18 then .ok (op_Fx18 s)
      else if s.opcode % 256 = 0x1E then .ok (op_Fx1E s)
      else if s.opcode % 256 = 0x29 then .ok (op_Fx29 s)
      else if s.opcode % 256 = 0x33 then op_Fx33 s
      else if s.opcode % 256 = 0x55 then op_Fx55 s
      else if s.opcode % 256 = 0x65 then op_Fx65 s
      else .error (.badFunctionCall s.opcode) := by
  unfold tableF
  simp only [mask_kk]


/-- The entry of `table` that a word of top nibble `k` selects. -/
theorem table_of_top (s : Chip8) :
    (s.opcode / 4096 % 16 = 0 → table s = table0 s) ∧
    (s.opcode / 4096 % 16 = 1 → table s = .ok (op_1nnn s)) ∧
    (s.opcode / 4096 % 16 = 2 → table s = op_2nnn s) ∧
    (s.opcode / 4096 % 16 = 3 → table s = .ok (op_3xkk s)) ∧
    (s.opcode / 4096 % 16 = 4 → table s = .ok (op_4xkk s)) ∧
    (s.opcode / 4096 % 16 = 5 → table s = .ok (op_5xy0 s)) ∧
    (s.opcode / 4096 % 16 = 6 → table s = .ok (op_6xkk s)) ∧
    (s.opcode / 4096 % 16 = 7 → table s = .ok (op_7xkk s)) ∧
    (s.opcode / 4096 % 16 = 8 → table s = table8 s) ∧
    (s.opcode / 4096 % 16 = 9 → table s = .ok (op_9xy0 s)) ∧
    (s.opcode / 4096 % 16 = 10 → table s = .ok (op_Annn s)) ∧
    (s.opcode / 4096 % 16 = 11 → table s = .ok (op_Bnnn s)) ∧
    (s.opcode / 4096 % 16 = 12 → table s = .ok (op_Cxkk s)) ∧
    (s.opcode / 4096 % 16 = 13 → table s = op_Dxyn s) ∧
    (s.opcode / 4096 % 16 = 14 → table s = tableE s) ∧
    (s.opcode / 4096 % 16 = 15 → table s = tableF s) := by
  refine ⟨?_, ?_, ?_, ?_, ?_, ?_, ?_, ?_, ?_, ?_, ?_, ?_, ?_, ?_, ?_, ?_⟩
  all_goals
    intro h
    unfold table
    simp [mask_top, h]

theorem table0_eq (s : Chip8) :
    table0 s =
      if s.opcode % 16 = 0 then .ok (op_00E0 s)
      else if s.opcode % 16 = 14 then op_00EE s
      else .error (.badFunctionCall s.opcode) := by
  unfold table0
  simp only [mask_n]

/-- The dispatch ends in the empty-handler fault exactly on the unmapped selectors. -/
theorem table_fault_iff (s : Chip8) :
    table s = .error (.badFunctionCall s.opcode) ↔
      (s.opcode / 4096 % 16 = 0 ∧ s.opcode % 16 ≠ 0 ∧ s.opcode % 16 ≠ 0xE) ∨
      (s.opcode / 4096 % 16 = 8 ∧ s.opcode % 16 ≠ 0 ∧ s.opcode % 16 ≠ 1 ∧ s.opcode % 16 ≠ 2 ∧ s.opcode % 16 ≠ 3 ∧ s.opcode % 16 ≠ 4 ∧ s.opcode % 16 ≠ 5 ∧ s.opcode % 16 ≠ 6 ∧ s.opcode % 16 ≠ 7 ∧ s.opcode % 16 ≠ 0xE) ∨
      (s.opcode / 4096 % 16 = 0xE ∧ s.opcode % 16 ≠ 1 ∧ s.opcode % 16 ≠ 0xE) ∨
      (s.opcode / 4096 % 16 = 0xF ∧ s.opcode % 256 ≠ 0x07 ∧ s.opcode % 256 ≠ 0x0A ∧ s.opcode % 256 ≠ 0x15 ∧ s.opcode % 256 ≠ 0x18 ∧ s.opcode % 256 ≠ 0x1E ∧ s.opcode % 256 ≠ 0x29 ∧ s.opcode % 256 ≠ 0x33 ∧ s.opcode % 256 ≠ 0x55 ∧ s.opcode % 256 ≠ 0x65) := by
  have e00EE : ∀ w, (op_00EE s = .error (.badFunctionCall w)) = False :=
    fun w => eq_false (fun h => op_00EE_error h w rfl)
  have eEx9E : ∀ w, (op_Ex9E s = .error (.badFunctionCall w)) = False :=
    fun w => eq_false (fun h => op_Ex9E_error h w rfl)
  have eExA1 : ∀ w, (op_ExA1 s = .error (.badFunctionCall w)) = False :=
    fun w => eq_false (fun h => op_ExA1_error h w rfl)
  have eFx33 : ∀ w, (op_Fx33 s = .error (.badFunctionCall w)) = False :=
    fun w => eq_false (fun h => op_Fx33_error h w rfl)
  have eFx55 : ∀ w, (op_Fx55 s = .error (.badFunctionCall w)) = False :=
    fun w => eq_false (fun h => op_Fx55_error h w rfl)
  have eFx65 : ∀ w, (op_Fx65 s = .error (.badFunctionCall w)) = False :=
    fun w => eq_false (fun h => op_Fx65_error h w rfl)
  have htop : s.opcode / 4096 % 16 = 0 ∨ s.opcode / 4096 % 16 = 1 ∨ s.opcode / 4096 % 16 = 2 ∨ s.opcode / 4096 % 16 = 3 ∨ s.opcode / 4096 % 16 = 4 ∨ s.opcode / 4096 % 16 = 5 ∨ s.opcode / 4096 % 16 = 6 ∨ s.opcode / 4096 % 16 = 7 ∨
      s.opcode / 4096 % 16 = 8 ∨ s.opcode / 4096 % 16 = 9 ∨ s.opcode / 4096 % 16 = 10 ∨ s.opcode / 4096 % 16 = 11 ∨ s.opcode / 4096 % 16 = 12 ∨ s.opcode / 4096 % 16 = 13 ∨ s.opcode / 4096 % 16 = 14 ∨ s.opcode / 4096 % 16 = 15 := by
    omega
  rcases htop with h | h | h | h | h | h | h | h | h | h | h | h | h | h | h | h
  · rw [(table_of_top s).1 h, table0_eq]
    simp only [ite_eq_iff, e00EE, eEx9E, eExA1, eFx33, eFx55, eFx65, reduceCtorEq,
      and_false, and_true, or_false, false_or]
    omega
  · rw [(table_of_top s).2.1 h]
    exact ⟨fun h1 => (by cases h1), fun h1 => (by omega)⟩
  · rw [(table_of_top s).2.2.1 h]
    exact ⟨fun h1 => absurd rfl (op_2nnn_error h1 _), fun h1 => by omega⟩
  · rw [(table_of_top s).2.2.2.1 h]
    exact ⟨fun h1 => (by cases h1), fun h1 => (by omega)⟩
  · rw [(table_of_top s).2.2.2.2.1 h]
    exact ⟨fun h1 => (by cases h1), fun h1 => (by omega)⟩
  · rw [(table_of_top s).2.2.2.2.2.1 h]
    exact ⟨fun h1 => (by cases h1), fun h1 => (by omega)⟩
  · rw [(table_of_top s).2.2.2.2.2.2.1 h]
    exact ⟨fun h1 => (by cases h1), fun h1 => (by omega)⟩
  · rw [(table_of_top s).2.2.2.2.2.2.2.1 h]
    exact ⟨fun h1 => (by cases h1), fun h1 => (by omega)⟩
  · rw [(table_of_top s).2.2.2.2.2.2.2.2.1 h, table8_eq]
    simp only [ite_eq_iff, e00EE, eEx9E, eExA1, eFx33, eFx55, eFx65, reduceCtorEq,
      and_false, and_true, or_false, false_or]
    omega
  · rw [(table_of_top s).2.2.2.2.2.2.2.2.2.1 h]
    exact ⟨fun h1 => (by cases h1), fun h1 => (by omega)⟩
  · rw [(table_of_top s).2.2.2.2.2.2.2.2.2.2.1 h]
    exact ⟨fun h1 => (by cases h1), fun h1 => (by omega)⟩
  · rw [(table_of_top s).2.2.2.2.2.2.2.2.2.2.2.1 h]
    exact ⟨fun h1 => (by cases h1), fun h1 => (by omega)⟩
  · rw [(table_of_top s).2.2.2.2.2.2.2.2.2.2.2.2.1 h]
    exact ⟨fun h1 => (by cases h1), fun h1 => (by omega)⟩
  · rw [(table_of_top s).2.2.2.2.2.2.2.2.2.2.2.2.2.1 h]
    exact ⟨fun h1 => absurd rfl (op_Dxyn_error h1 _), fun h1 => by omega⟩
  · rw [(table_of_top s).2.2.2.2.2.2.2.2.2.2.2.2.2.2.1 h, tableE_eq]
    simp only [ite_eq_iff, e00EE, eEx9E, eExA1, eFx33, eFx55, eFx65, reduceCtorEq,
      and_false, and_true, or_false, false_or]
    omega
  · rw [(table_of_top s).2.2.2.2.2.2.2.2.2.2.2.2.2.2.2 h, tableF_eq]
    simp only [ite_eq_iff, e00EE, eEx9E, eExA1, eFx33, eFx55, eFx65, reduceCtorEq,
      and_false, and_true, or_false, false_or]
    omega
/-- C14: the dispatch `table` that `cycle` performs on the fetched word `w` (held in
`opcode`) ends in the empty-handler fault, without running a handler, exactly when `w`
has no mapped handler: top nibble 0 with low nibble not in {0, E}, top nibble 8 with low
nibble not in {0..7, E}, top nibble E with low nibble not in {1, E}, or top nibble F
with low byte not in {07, 0A, 15, 18, 1E, 29, 33, 55, 65}.  Every other word runs the
handler of its class: the words with top nibble 1..7, 9, A..D the handler of that
nibble, the others the handler of their secondary selector. -/
theorem table_dispatch (s : Chip8) :
    (table s = .error (.badFunctionCall s.opcode) ↔
      (s.opcode / 4096 % 16 = 0 ∧ s.opcode % 16 ≠ 0 ∧ s.opcode % 16 ≠ 0xE) ∨
      (s.opcode / 4096 % 16 = 8 ∧ s.opcode % 16 ≠ 0 ∧ s.opcode % 16 ≠ 1 ∧ s.opcode % 16 ≠ 2 ∧ s.opcode % 16 ≠ 3 ∧ s.opcode % 16 ≠ 4 ∧ s.opcode % 16 ≠ 5 ∧ s.opcode % 16 ≠ 6 ∧ s.opcode % 16 ≠ 7 ∧ s.opcode % 16 ≠ 0xE) ∨
      (s.opcode / 4096 % 16 = 0xE ∧ s.opcode % 16 ≠ 1 ∧ s.opcode % 16 ≠ 0xE) ∨
      (s.opcode / 4096 % 16 = 0xF ∧ s.opcode % 256 ≠ 0x07 ∧ s.opcode % 256 ≠ 0x0A ∧ s.opcode % 256 ≠ 0x15 ∧ s.opcode % 256 ≠ 0x18 ∧ s.opcode % 256 ≠ 0x1E ∧ s.opcode % 256 ≠ 0x29 ∧ s.opcode % 256 ≠ 0x33 ∧ s.opcode % 256 ≠ 0x55 ∧ s.opcode % 256 ≠ 0x65)) ∧
    (s.opcode / 4096 % 16 = 0x1 → table s = .ok (op_1nnn s)) ∧
    (s.opcode / 4096 % 16 = 0x2 → table s = op_2nnn s) ∧
    (s.opcode / 4096 % 16 = 0x3 → table s = .ok (op_3xkk s)) ∧
    (s.opcode / 4096 % 16 = 0x4 → table s = .ok (op_4xkk s)) ∧
    (s.opcode / 4096 % 16 = 0x5 → table s = .ok (op_5xy0 s)) ∧
    (s.opcode / 4096 % 16 = 0x6 → table s = .ok (op_6xkk s)) ∧
    (s.opcode / 4096 % 16 = 0x7 → table s = .ok (op_7xkk s)) ∧
    (s.opcode / 4096 % 16 = 0x9 → table s = .ok (op_9xy0 s)) ∧
    (s.opcode / 4096 % 16 = 0xA → table s = .ok (op_Annn s)) ∧
    (s.opcode / 4096 % 16 = 0xB → table s = .ok (op_Bnnn s)) ∧
    (s.opcode / 4096 % 16 = 0xC → table s = .ok (op_Cxkk s)) ∧
    (s.opcode / 4096 % 16 = 0xD → table s = op_Dxyn s) ∧
    (s.opcode / 4096 % 16 = 0x0 ∧ s.opcode % 16 = 0x00 → table s = .ok (op_00E0 s)) ∧
    (s.opcode / 4096 % 16 = 0x0 ∧ s.opcode % 16 = 0x0E → table s = op_00EE s) ∧
    (s.opcode / 4096 % 16 = 0x8 ∧ s.opcode % 16 = 0x00 → table s = .ok (op_8xy0 s)) ∧
    (s.opcode / 4096 % 16 = 0x8 ∧ s.opcode % 16 = 0x01 → table s = .ok (op_8xy1 s)) ∧
    (s.opcode / 4096 % 16 = 0x8 ∧ s.opcode % 16 = 0x02 → table s = .ok (op_8xy2 s)) ∧
    (s.opcode / 4096 % 16 = 0x8 ∧ s.opcode % 16 = 0x03 → table s = .ok (op_8xy3 s)) ∧
    (s.opcode / 4096 % 16 = 0x8 ∧ s.opcode % 16 = 0x04 → table s = .ok (op_8xy4 s)) ∧
    (s.opcode / 4096 % 16 = 0x8 ∧ s.opcode % 16 = 0x05 → table s = .ok (op_8xy5 s)) ∧
    (s.opcode / 4096 % 16 = 0x8 ∧ s.opcode % 16 = 0x06 → table s = .ok (op_8xy6 s)) ∧
    (s.opcode / 4096 % 16 = 0x8 ∧ s.opcode % 16 = 0x07 → table s = .ok (op_8xy7 s)) ∧
    (s.opcode / 4096 % 16 = 0x8 ∧ s.opcode % 16 = 0x0E → table s = .ok (op_8xyE s)) ∧
    (s.opcode / 4096 % 16 = 0xE ∧ s.opcode % 16 = 0x01 → table s = op_ExA1 s) ∧
    (s.opcode / 4096 % 16 = 0xE ∧ s.opcode % 16 = 0x0E → table s = op_Ex9E s) ∧
    (s.opcode / 4096 % 16 = 0xF ∧ s.opcode % 256 = 0x07 → table s = .ok (op_Fx07 s)) ∧
    (s.opcode / 4096 % 16 = 0xF ∧ s.opcode % 256 = 0x0A → table s = .ok (op_Fx0A s)) ∧
    (s.opcode / 4096 % 16 = 0xF ∧ s.opcode % 256 = 0x15 → table s = .ok (op_Fx15 s)) ∧
    (s.opcode / 4096 % 16 = 0xF ∧ s.opcode % 256 = 0x18 → table s = .ok (op_Fx18 s)) ∧
    (s.opcode / 4096 % 16 = 0xF ∧ s.opcode % 256 = 0x1E → table s = .ok (op_Fx1E s)) ∧
    (s.opcode / 4096 % 16 = 0xF ∧ s.opcode % 256 = 0x29 → table s = .ok (op_Fx29 s)) ∧
    (s.opcode / 4096 % 16 = 0xF ∧ s.opcode % 256 = 0x33 → table s = op_Fx33 s) ∧
    (s.opcode / 4096 % 16 = 0xF ∧ s.opcode % 256 = 0x55 → table s = op_Fx55 s) ∧
    (s.opcode / 4096 % 16 = 0xF ∧ s.opcode % 256 = 0x65 → table s = op_Fx65 s) := by
  refine ⟨table_fault_iff s, ?_, ?_, ?_, ?_, ?_, ?_, ?_, ?_, ?_, ?_, ?_, ?_, ?_, ?_, ?_, ?_, ?_, ?_, ?_, ?_, ?_, ?_, ?_, ?_, ?_, ?_, ?_, ?_, ?_, ?_, ?_, ?_, ?_, ?_⟩
  · exact (table_of_top s).2.1
  · exact (table_of_top s).2.2.1
  · exact (table_of_top s).2.2.2.1
  · exact (table_of_top s).2.2.2.2.1
  · exact (table_of_top s).2.2.2.2.2.1
  · exact (table_of_top s).2.2.2.2.2.2.1
  · exact (table_of_top s).2.2.2.2.2.2.2.1
  · exact (table_of_top s).2.2.2.2.2.2.2.2.2.1
  · exact (table_of_top s).2.2.2.2.2.2.2.2.2.2.1
  · exact (table_of_top s).2.2.2.2.2.2.2.2.2.2.2.1
  · exact (table_of_top s).2.2.2.2.2.2.2.2.2.2.2.2.1
  · exact (table_of_top s).2.2.2.2.2.2.2.2.2.2.2.2.2.1
  · intro h
    rw [(table_of_top s).1 h.1, table0_eq]
    simp [h.2]
  · intro h
    rw [(table_of_top s).1 h.1, table0_eq]
    simp [h.2]
  · intro h
    rw [(table_of_top s).2.2.2.2.2.2.2.2.1 h.1, table8_eq]
    simp [h.2]
  · intro h
    rw [(table_of_top s).2.2.2.2.2.2.2.2.1 h.1, table8_eq]
    simp [h.2]
  · intro h
    rw [(table_of_top s).2.2.2.2.2.2.2.2.1 h.1, table8_eq]
    simp [h.2]
  · intro h
    rw [(table_of_top s).2.2.2.2.2.2.2.2.1 h.1, table8_eq]
    simp [h.2]
  · intro h
    rw [(table_of_top s).2.2.2.2.2.2.2.2.1 h.1, table8_eq]
    simp [h.2]
  · intro h
    rw [(table_of_top s).2.2.2.2.2.2.2.2.1 h.1, table8_eq]
    simp [h.2]
  · intro h
    rw [(table_of_top s).2.2.2.2.2.2.2.2.1 h.1, table8_eq]
    simp [h.2]
  · intro h
    rw [(table_of_top s).2.2.2.2.2.2.2.2.1 h.1, table8_eq]
    simp [h.2]
  · intro h
    rw [(table_of_top s).2.2.2.2.2.2.2.2.1 h.1, table8_eq]
    simp [h.2]
  · intro h
    rw [(table_of_top s).2.2.2.2.2.2.2.2.2.2.2.2.2.2.1 h.1, tableE_eq]
    simp [h.2]
  · intro h
    rw [(table_of_top s).2.2.2.2.2.2.2.2.2.2.2.2.2.2.1 h.1, tableE_eq]
    simp [h.2]
  · intro h
    rw [(table_of_top s).2.2.2.2.2.2.2.2.2.2.2.2.2.2.2 h.1, tableF_eq]
    simp [h.2]
  · intro h
    rw [(table_of_top s).2.2.2.2.2.2.2.2.2.2.2.2.2.2.2 h.1, tableF_eq]
    simp [h.2]
  · intro h
    rw [(table_of_top s).2.2.2.2.2.2.2.2.2.2.2.2.2.2.2 h.1, tableF_eq]
    simp [h.2]
  · intro h
    rw [(table_of_top s).2.2.2.2.2.2.2.2.2.2.2.2.2.2.2 h.1, tableF_eq]
    simp [h.2]
  · intro h
    rw [(table_of_top s).2.2.2.2.2.2.2.2.2.2.2.2.2.2.2 h.1, tableF_eq]
    simp [h.2]
  · intro h
    rw [(table_of_top s).2.2.2.2.2.2.2.2.2.2.2.2.2.2.2 h.1, tableF_eq]
    simp [h.2]
  · intro h
    rw [(table_of_top s).2.2.2.2.2.2.2.2.2.2.2.2.2.2.2 h.1, tableF_eq]
    simp [h.2]
  · intro h
    rw [(table_of_top s).2.2.2.2.2.2.2.2.2.2.2.2.2.2.2 h.1, tableF_eq]
    simp [h.2]
  · intro h
    rw [(table_of_top s).2.2.2.2.2.2.2.2.2.2.2.2.2.2.2 h.1, tableF_eq]
    simp [h.2]

/-! ## What the handlers leave alone -/

theorem sameArrays_refl (s : Chip8) : SameArrays s s := ⟨rfl, rfl, rfl, rfl, rfl⟩

theorem op_1nnn_sameArrays (s : Chip8) : SameArrays s (op_1nnn s) :=
  ⟨rfl, rfl, rfl, rfl, rfl⟩

theorem op_6xkk_sameArrays (s : Chip8) : SameArrays s (op_6xkk s) :=
  ⟨rfl, rfl, rfl, rfl, rfl⟩

theorem op_7xkk_sameArrays (s : Chip8) : SameArrays s (op_7xkk s) :=
  ⟨rfl, rfl, rfl, rfl, rfl⟩

theorem op_8xy0_sameArrays (s : Chip8) : SameArrays s (op_8xy0 s) :=
  ⟨rfl, rfl, rfl, rfl, rfl⟩

theorem op_8xy1_sameArrays (s : Chip8) : SameArrays s (op_8xy1 s) :=
  ⟨rfl, rfl, rfl, rfl, rfl⟩

theorem op_8xy2_sameArrays (s : Chip8) : SameArrays s (op_8xy2 s) :=
  ⟨rfl, rfl, rfl, rfl, rfl⟩

theorem op_8xy3_sameArrays (s : Chip8) : SameArrays s (op_8xy3 s) :=
  ⟨rfl, rfl, rfl, rfl, rfl⟩

theorem op_8xy4_sameArrays (s : Chip8) : SameArrays s (op_8xy4 s) :=
  ⟨rfl, rfl, rfl, rfl, rfl⟩

theorem op_8xy5_sameArrays (s : Chip8) : SameArrays s (op_8xy5 s) :=
  ⟨rfl, rfl, rfl, rfl, rfl⟩

theorem op_8xy6_sameArrays (s : Chip8) : SameArrays s (op_8xy6 s) :=
  ⟨rfl, rfl, rfl, rfl, rfl⟩

theorem op_8xy7_sameArrays (s : Chip8) : SameArrays s (op_8xy7 s) :=
  ⟨rfl, rfl, rfl, rfl, rfl⟩

theorem op_8xyE_sameArrays (s : Chip8) : SameArrays s (op_8xyE s) :=
  ⟨rfl, rfl, rfl, rfl, rfl⟩

theorem op_Annn_sameArrays (s : Chip8) : SameArrays s (op_Annn s) :=
  ⟨rfl, rfl, rfl, rfl, rfl⟩

theorem op_Bnnn_sameArrays (s : Chip8) : SameArrays s (op_Bnnn s) :=
  ⟨rfl, rfl, rfl, rfl, rfl⟩

theorem op_Cxkk_sameArrays (s : Chip8) : SameArrays s (op_Cxkk s) :=
  ⟨rfl, rfl, rfl, rfl, rfl⟩

theorem op_Fx07_sameArrays (s : Chip8) : SameArrays s (op_Fx07 s) :=
  ⟨rfl, rfl, rfl, rfl, rfl⟩

theorem op_Fx15_sameArrays (s : Chip8) : SameArrays s (op_Fx15 s) :=
  ⟨rfl, rfl, rfl, rfl, rfl⟩

theorem op_Fx18_sameArrays (s : Chip8) : SameArrays s (op_Fx18 s) :=
  ⟨rfl, rfl, rfl, rfl, rfl⟩

theorem op_Fx1E_sameArrays (s : Chip8) : SameArrays s (op_Fx1E s) :=
  ⟨rfl, rfl, rfl, rfl, rfl⟩

theorem op_Fx29_sameArrays (s : Chip8) : SameArrays s (op_Fx29 s) :=
  ⟨rfl, rfl, rfl, rfl, rfl⟩

theorem op_3xkk_sameArrays (s : Chip8) : SameArrays s (op_3xkk s) := by
  unfold op_3xkk
  split_ifs <;> exact ⟨rfl, rfl, rfl, rfl, rfl⟩

theorem op_4xkk_sameArrays (s : Chip8) : SameArrays s (op_4xkk s) := by
  unfold op_4xkk
  split_ifs <;> exact ⟨rfl, rfl, rfl, rfl, rfl⟩

theorem op_5xy0_sameArrays (s : Chip8) : SameArrays s (op_5xy0 s) := by
  unfold op_5xy0
  split_ifs <;> exact ⟨rfl, rfl, rfl, rfl, rfl⟩

theorem op_9xy0_sameArrays (s : Chip8) : SameArrays s (op_9xy0 s) := by
  unfold op_9xy0
  split_ifs <;> exact ⟨rfl, rfl, rfl, rfl, rfl⟩

theorem op_Fx0A_sameArrays (s : Chip8) : SameArrays s (op_Fx0A s) := by
  unfold op_Fx0A
  split <;> exact ⟨rfl, rfl, rfl, rfl, rfl⟩

theorem op_Ex9E_sameArrays {s s' : Chip8} (h : op_Ex9E s = .ok s') : SameArrays s s' := by
  simp only [op_Ex9E] at h
  split at h
  · simp only [Except.ok.injEq] at h
    rw [← h]
    split_ifs <;> exact ⟨rfl, rfl, rfl, rfl, rfl⟩
  · cases h

theorem op_ExA1_sameArrays {s s' : Chip8} (h : op_ExA1 s = .ok s') : SameArrays s s' := by
  simp only [op_ExA1] at h
  split at h
  · simp only [Except.ok.injEq] at h
    rw [← h]
    split_ifs <;> exact ⟨rfl, rfl, rfl, rfl, rfl⟩
  · cases h

theorem op_Fx65_sameArrays {s s' : Chip8} (h : op_Fx65 s = .ok s') : SameArrays s s' := by
  refine forLoop_ok_rel (R := SameArrays) sameArrays_refl ?_ _ (fun i _ t t' hb => ?_) h
  · rintro a b c ⟨h1, h2, h3, h4, h5⟩ ⟨k1, k2, k3, k4, k5⟩
    exact ⟨k1.trans h1, k2.trans h2, k3.trans h3, k4.trans h4, k5.trans h5⟩
  · simp only at hb
    split at hb
    · simp only [Except.ok.injEq] at hb
      rw [← hb]
      exact ⟨rfl, rfl, rfl, rfl, rfl⟩
    · cases hb

/-! ### The draw handler changes only the framebuffer and register 15 -/

theorem sameButVideoVF_refl (s : Chip8) : SameButVideoVF s s :=
  ⟨rfl, rfl, rfl, rfl, rfl, rfl, rfl, rfl, rfl, rfl, fun _ _ => rfl⟩

theorem sameButVideoVF_trans {a b c : Chip8} (h : SameButVideoVF a b)
    (k : SameButVideoVF b c) : SameButVideoVF a c := by
  obtain ⟨h1, h2, h3, h4, h5, h6, h7, h8, h9, h10, h11⟩ := h
  obtain ⟨k1, k2, k3, k4, k5, k6, k7, k8, k9, k10, k11⟩ := k
  exact ⟨k1.trans h1, k2.trans h2, k3.trans h3, k4.trans h4, k5.trans h5, k6.trans h6,
    k7.trans h7, k8.trans h8, k9.trans h9, k10.trans h10,
    fun i hi => (k11 i hi).trans (h11 i hi)⟩

theorem setRegister15_sameButVideoVF (s : Chip8) (v : Nat) :
    SameButVideoVF s (setRegister s 15 v) :=
  ⟨rfl, rfl, rfl, rfl, rfl, rfl, rfl, rfl, rfl, rfl,
    fun k hk => by simp only [setRegister, Function.update_noteq hk]⟩

theorem drawPixel_sameButVideoVF {xPos yPos b j i : Nat} {s s' : Chip8}
    (h : drawPixel xPos yPos b j i s = .ok s') : SameButVideoVF s s' := by
  simp only [drawPixel] at h
  split_ifs at h with h1 h2 h3
  · simp only [Except.ok.injEq] at h
    rw [← h]
    exact ⟨rfl, rfl, rfl, rfl, rfl, rfl, rfl, rfl, rfl, rfl,
      fun k hk => by simp only [setRegister, Function.update_noteq hk]⟩
  · simp only [Except.ok.injEq] at h
    rw [← h]
    exact ⟨rfl, rfl, rfl, rfl, rfl, rfl, rfl, rfl, rfl, rfl, fun _ _ => rfl⟩
  · simp only [Except.ok.injEq] at h
    rw [← h]
    exact sameButVideoVF_refl s

theorem drawRow_sameButVideoVF {xPos yPos j : Nat} {s s' : Chip8}
    (h : drawRow xPos yPos j s = .ok s') : SameButVideoVF s s' := by
  simp only [drawRow] at h
  split at h
  · exact forLoop_ok_rel (R := SameButVideoVF) sameButVideoVF_refl
      (fun _ _ _ => sameButVideoVF_trans) _ (fun _ _ _ _ hb => drawPixel_sameButVideoVF hb) h
  · cases h

theorem op_Dxyn_sameButVideoVF {s s' : Chip8} (h : op_Dxyn s = .ok s') :
    SameButVideoVF s s' :=
  sameButVideoVF_trans (setRegister15_sameButVideoVF s 0)
    (forLoop_ok_rel (R := SameButVideoVF) sameButVideoVF_refl
      (fun _ _ _ => sameButVideoVF_trans) _ (fun _ _ _ _ hb => drawRow_sameButVideoVF hb) h)

/-! ### The handlers that touch the stack or the memory -/

theorem op_00EE_ok {s s' : Chip8} (h : op_00EE s = .ok s') :
    (s.sp + 255) % 256 < 16 ∧ s'.sp = (s.sp + 255) % 256 ∧ s'.stack = s.stack ∧
      s'.memory = s.memory ∧ s'.video = s.video := by
  simp only [op_00EE, readStack] at h
  split_ifs at h with hlt
  simp only [Except.ok.injEq] at h
  rw [← h]
  exact ⟨hlt, rfl, rfl, rfl, rfl⟩

theorem op_2nnn_ok {s s' : Chip8} (h : op_2nnn s = .ok s') :
    s.sp < 16 ∧ s'.sp = (s.sp + 1) % 256 ∧ s'.stack = Function.update s.stack s.sp s.pc ∧
      s'.memory = s.memory ∧ s'.video = s.video := by
  simp only [op_2nnn, writeStack] at h
  split_ifs at h with hlt
  simp only [Except.ok.injEq] at h
  rw [← h]
  exact ⟨hlt, rfl, rfl, rfl, rfl⟩

theorem op_Fx33_ok {s s' : Chip8} (h : op_Fx33 s = .ok s') :
    s'.sp = s.sp ∧ s'.stack = s.stack ∧ s'.video = s.video ∧
      ∀ a, a < s.index ∨ s.index + 2 < a → s'.memory a = s.memory a := by
  by_cases h2 : s.index + 2 < 4096
  swap
  · simp only [op_Fx33, writeMemory, MEMORY_SIZE, h2, if_false] at h
    cases h
  have h1 : s.index + 1 < 4096 := by omega
  have h0 : s.index < 4096 := by omega
  simp only [op_Fx33, writeMemory, MEMORY_SIZE, h2, h1, h0, if_true, Except.ok.injEq] at h
  rw [← h]
  refine ⟨rfl, rfl, rfl, fun a ha => ?_⟩
  have a0 : a ≠ s.index := by omega
  have a1 : a ≠ s.index + 1 := by omega
  have a2 : a ≠ s.index + 2 := by omega
  simp only [Function.update_noteq a0, Function.update_noteq a1, Function.update_noteq a2]

theorem op_Fx55_ok {s s' : Chip8} (h : op_Fx55 s = .ok s') :
    s'.sp = s.sp ∧ s'.stack = s.stack ∧ s'.video = s.video ∧
      ∀ a, a < s.index ∨ s.index + Vx s < a → s'.memory a = s.memory a := by
  have key := forLoop_ok_rel
    (R := fun t t' : Chip8 => t'.index = t.index ∧ t'.sp = t.sp ∧ t'.stack = t.stack ∧
      t'.video = t.video ∧ ∀ a, a < t.index ∨ t.index + Vx s < a → t'.memory a = t.memory a)
    (fun t => ⟨rfl, rfl, rfl, rfl, fun _ _ => rfl⟩)
    (fun a b c hab hbc => ⟨hbc.1.trans hab.1, hbc.2.1.trans hab.2.1,
      hbc.2.2.1.trans hab.2.2.1, hbc.2.2.2.1.trans hab.2.2.2.1,
      fun x hx => (hbc.2.2.2.2 x (by rw [hab.1]; exact hx)).trans (hab.2.2.2.2 x hx)⟩)
    (Vx s + 1)
    (fun i hi t t' hb => by
      simp only [writeMemory] at hb
      split_ifs at hb
      simp only [Except.ok.injEq] at hb
      rw [← hb]
      refine ⟨rfl, rfl, rfl, rfl, fun a ha => ?_⟩
      have hne : a ≠ t.index + i := by omega
      simp only [Function.update_noteq hne])
    h
  exact ⟨key.2.1, key.2.2.1, key.2.2.2.1, key.2.2.2.2⟩

/-! ### What one dispatch does to the arrays -/

/-- A dispatch that succeeds either leaves framebuffer, stack, stack depth, memory and
keypad alone, or ran one of the handlers that touch them. -/
theorem table_effect {s s' : Chip8} (h : table s = .ok s') :
    SameArrays s s' ∨ s' = op_00E0 s ∨ op_00EE s = .ok s' ∨ op_2nnn s = .ok s' ∨
      op_Dxyn s = .ok s' ∨
      (s.opcode / 4096 % 16 = 15 ∧ s.opcode % 256 = 0x33 ∧ op_Fx33 s = .ok s') ∨
      (s.opcode / 4096 % 16 = 15 ∧ s.opcode % 256 = 0x55 ∧ op_Fx55 s = .ok s') := by
  have htop : s.opcode / 4096 % 16 = 0 ∨ s.opcode / 4096 % 16 = 1 ∨ s.opcode / 4096 % 16 = 2 ∨ s.opcode / 4096 % 16 = 3 ∨ s.opcode / 4096 % 16 = 4 ∨ s.opcode / 4096 % 16 = 5 ∨ s.opcode / 4096 % 16 = 6 ∨ s.opcode / 4096 % 16 = 7 ∨
      s.opcode / 4096 % 16 = 8 ∨ s.opcode / 4096 % 16 = 9 ∨ s.opcode / 4096 % 16 = 10 ∨ s.opcode / 4096 % 16 = 11 ∨ s.opcode / 4096 % 16 = 12 ∨ s.opcode / 4096 % 16 = 13 ∨ s.opcode / 4096 % 16 = 14 ∨ s.opcode / 4096 % 16 = 15 := by
    omega
  rcases htop with h0 | h0 | h0 | h0 | h0 | h0 | h0 | h0 | h0 | h0 | h0 | h0 | h0 | h0 | h0 | h0
  · rw [(table_of_top s).1 h0] at h
    rw [table0_eq] at h
    simp only [ite_eq_iff, reduceCtorEq, and_false, or_false, Except.ok.injEq] at h
    rcases h with ⟨hc, he⟩ | ⟨-, hc, he⟩
    · exact Or.inr (Or.inl he.symm)
    · exact Or.inr (Or.inr (Or.inl he))
  · rw [(table_of_top s).2.1 h0] at h
    simp only [Except.ok.injEq] at h
    rw [← h]
    exact Or.inl (op_1nnn_sameArrays s)
  · rw [(table_of_top s).2.2.1 h0] at h
    exact Or.inr (Or.inr (Or.inr (Or.inl h)))
  · rw [(table_of_top s).2.2.2.1 h0] at h
    simp only [Except.ok.injEq] at h
    rw [← h]
    exact Or.inl (op_3xkk_sameArrays s)
  · rw [(table_of_top s).2.2.2.2.1 h0] at h
    simp only [Except.ok.injEq] at h
    rw [← h]
    exact Or.inl (op_4xkk_sameArrays s)
  · rw [(table_of_top s).2.2.2.2.2.1 h0] at h
    simp only [Except.ok.injEq] at h
    rw [← h]
    exact Or.inl (op_5xy0_sameArrays s)
  · rw [(table_of_top s).2.2.2.2.2.2.1 h0] at h
    simp only [Except.ok.injEq] at h
    rw [← h]
    exact Or.inl (op_6xkk_sameArrays s)
  · rw [(table_of_top s).2.2.2.2.2.2.2.1 h0] at h
    simp only [Except.ok.injEq] at h
    rw [← h]
    exact Or.inl (op_7xkk_sameArrays s)
  · rw [(table_of_top s).2.2.2.2.2.2.2.2.1 h0] at h
    rw [table8_eq] at h
    simp only [ite_eq_iff, reduceCtorEq, and_false, or_false, Except.ok.injEq] at h
    rcases h with ⟨hc, he⟩ | ⟨-, ⟨hc, he⟩ | ⟨-, ⟨hc, he⟩ | ⟨-, ⟨hc, he⟩ | ⟨-, ⟨hc, he⟩ | ⟨-, ⟨hc, he⟩ | ⟨-, ⟨hc, he⟩ | ⟨-, ⟨hc, he⟩ | ⟨-, hc, he⟩⟩⟩⟩⟩⟩⟩⟩
    · rw [← he]
      exact Or.inl (op_8xy0_sameArrays s)
    · rw [← he]
      exact Or.inl (op_8xy1_sameArrays s)
    · rw [← he]
      exact Or.inl (op_8xy2_sameArrays s)
    · rw [← he]
      exact Or.inl (op_8xy3_sameArrays s)
    · rw [← he]
      exact Or.inl (op_8xy4_sameArrays s)
    · rw [← he]
      exact Or.inl (op_8xy5_sameArrays s)
    · rw [← he]
      exact Or.inl (op_8xy6_sameArrays s)
    · rw [← he]
      exact Or.inl (op_8xy7_sameArrays s)
    · rw [← he]
      exact Or.inl (op_8xyE_sameArrays s)
  · rw [(table_of_top s).2.2.2.2.2.2.2.2.2.1 h0] at h
    simp only [Except.ok.injEq] at h
    rw [← h]
    exact Or.inl (op_9xy0_sameArrays s)
  · rw [(table_of_top s).2.2.2.2.2.2.2.2.2.2.1 h0] at h
    simp only [Except.ok.injEq] at h
    rw [← h]
    exact Or.inl (op_Annn_sameArrays s)
  · rw [(table_of_top s).2.2.2.2.2.2.2.2.2.2.2.1 h0] at h
    simp only [Except.ok.injEq] at h
    rw [← h]
    exact Or.inl (op_Bnnn_sameArrays s)
  · rw [(table_of_top s).2.2.2.2.2.2.2.2.2.2.2.2.1 h0] at h
    simp only [Except.ok.injEq] at h
    rw [← h]
    exact Or.inl (op_Cxkk_sameArrays s)
  · rw [(table_of_top s).2.2.2.2.2.2.2.2.2.2.2.2.2.1 h0] at h
    exact Or.inr (Or.inr (Or.inr (Or.inr (Or.inl h))))
  · rw [(table_of_top s).2.2.2.2.2.2.2.2.2.2.2.2.2.2.1 h0] at h
    rw [tableE_eq] at h
    simp only [ite_eq_iff, reduceCtorEq, and_false, or_false, Except.ok.injEq] at h
    rcases h with ⟨hc, he⟩ | ⟨-, hc, he⟩
    · exact Or.inl (op_ExA1_sameArrays he)
    · exact Or.inl (op_Ex9E_sameArrays he)
  · rw [(table_of_top s).2.2.2.2.2.2.2.2.2.2.2.2.2.2.2 h0] at h
    rw [tableF_eq] at h
    simp only [ite_eq_iff, reduceCtorEq, and_false, or_false, Except.ok.injEq] at h
    rcases h with ⟨hc, he⟩ | ⟨-, ⟨hc, he⟩ | ⟨-, ⟨hc, he⟩ | ⟨-, ⟨hc, he⟩ | ⟨-, ⟨hc, he⟩ | ⟨-, ⟨hc, he⟩ | ⟨-, ⟨hc, he⟩ | ⟨-, ⟨hc, he⟩ | ⟨-, hc, he⟩⟩⟩⟩⟩⟩⟩⟩
    · rw [← he]
      exact Or.inl (op_Fx07_sameArrays s)
    · rw [← he]
      exact Or.inl (op_Fx0A_sameArrays s)
    · rw [← he]
      exact Or.inl (op_Fx15_sameArrays s)
    · rw [← he]
      exact Or.inl (op_Fx18_sameArrays s)
    · rw [← he]
      exact Or.inl (op_Fx1E_sameArrays s)
    · rw [← he]
      exact Or.inl (op_Fx29_sameArrays s)
    · exact Or.inr (Or.inr (Or.inr (Or.inr (Or.inr (Or.inl ⟨h0, hc, he⟩)))))
    · exact Or.inr (Or.inr (Or.inr (Or.inr (Or.inr (Or.inr ⟨h0, hc, he⟩)))))
    · exact Or.inl (op_Fx65_sameArrays he)

/-- A cycle that succeeds has fetched its word inside memory, dispatched it with `pc`
already advanced, and updated the timers afterwards. -/
theorem cycle_ok_inv {s s' : Chip8} (h : cycle s = .ok s') :
    s.pc + 1 < 4096 ∧
      ∃ s3, table { s with opcode := nextWord s, pc := s.pc + 2 } = .ok s3 ∧
        s' = updateTimers s3 := by
  by_cases hpc : s.pc + 1 < 4096
  · refine ⟨hpc, ?_⟩
    rw [cycle_of_fetch s hpc] at h
    split at h
    · cases h
    · rename_i s3 h3
      simp only [Except.ok.injEq] at h
      exact ⟨s3, h3, h.symm⟩
  · exfalso
    simp only [cycle, readMemory, MEMORY_SIZE] at h
    split_ifs at h

/-! ## Stack depth -/

/-- C15 (as amended): from a state with stack depth at most 16, a `cycle` that succeeds
(one that made no access outside an array and met no unmapped selector) leaves the depth
at most 16 and leaves every stack slot outside `0..15` as it was. -/
theorem cycle_stack_depth (s s' : Chip8) (hsp : s.sp ≤ 16) (h : cycle s = .ok s') :
    s'.sp ≤ 16 ∧ ∀ i, 16 ≤ i → s'.stack i = s.stack i := by
  obtain ⟨_, s3, ht, rfl⟩ := cycle_ok_inv h
  rw [updateTimers_sp, updateTimers_stack]
  generalize hgen : ({ s with opcode := nextWord s, pc := s.pc + 2 } : Chip8) = t at ht
  have hsp' : t.sp = s.sp := by rw [← hgen]
  have hst' : t.stack = s.stack := by rw [← hgen]
  rw [← hsp'] at hsp
  rw [← hst']
  rcases table_effect ht with hs | hs | hs | hs | hs | ⟨_, _, hs⟩ | ⟨_, _, hs⟩
  · obtain ⟨_, h2, h3, _, _⟩ := hs
    rw [h2, h3]
    exact ⟨hsp, fun _ _ => rfl⟩
  · rw [hs]
    exact ⟨hsp, fun _ _ => rfl⟩
  · obtain ⟨h1, h2, h3, _, _⟩ := op_00EE_ok hs
    rw [h2, h3]
    exact ⟨by omega, fun _ _ => rfl⟩
  · obtain ⟨h1, h2, h3, _, _⟩ := op_2nnn_ok hs
    rw [h2, h3]
    refine ⟨by omega, fun i hi => ?_⟩
    have hne : i ≠ t.sp := by omega
    rw [Function.update_noteq hne]
  · obtain ⟨_, _, _, h4, h5, _⟩ := op_Dxyn_sameButVideoVF hs
    rw [h4, h5]
    exact ⟨hsp, fun _ _ => rfl⟩
  · obtain ⟨h1, h2, _, _⟩ := op_Fx33_ok hs
    rw [h1, h2]
    exact ⟨hsp, fun _ _ => rfl⟩
  · obtain ⟨h1, h2, _, _⟩ := op_Fx55_ok hs
    rw [h1, h2]
    exact ⟨hsp, fun _ _ => rfl⟩

/-- Witness for `cycle_stack_depth`: the call `0x2300` at depth 15. -/
theorem cycle_stack_depth_witness :
    (sampleDepth 0x23 0x00 15).sp ≤ 16 ∧
      cycle (sampleDepth 0x23 0x00 15) = .ok (afterCycle (sampleDepth 0x23 0x00 15)) ∧
      (afterCycle (sampleDepth 0x23 0x00 15)).sp ≤ 16 ∧
      ∀ i, 16 ≤ i →
        (afterCycle (sampleDepth 0x23 0x00 15)).stack i = (sampleDepth 0x23 0x00 15).stack i :=
  ⟨by decide, rfl, cycle_stack_depth (sampleDepth 0x23 0x00 15)
    (afterCycle (sampleDepth 0x23 0x00 15)) (by decide) rfl⟩

/-- C15 (counterexample): at stack depth 16 the call `0x2300` writes `stack[16]`, and at
stack depth 0 the return `0x00EE` lowers the depth to 255 and reads `stack[255]`: both
slots lie outside `0..15`, which the embedding reports as a stack fault at that slot. -/
theorem cycle_stack_counterexample :
    (sampleDepth 0x23 0x00 16).sp ≤ 16 ∧
      cycle (sampleDepth 0x23 0x00 16) = .error (.stackOutOfBounds 16) ∧
      (sampleDepth 0x00 0xEE 0).sp ≤ 16 ∧
      cycle (sampleDepth 0x00 0xEE 0) = .error (.stackOutOfBounds 255) :=
  ⟨by decide, rfl, by decide, rfl⟩

/-! ## The font region -/

/-- One successful cycle that is not a store into the font region leaves the region as
it was. -/
theorem cycle_font_kept {s s' : Chip8} (h : cycle s = .ok s') (hsafe : storesOutsideFont s) :
    ∀ a, 0x50 ≤ a → a ≤ 0x9F → s'.memory a = s.memory a := by
  obtain ⟨_, s3, ht, rfl⟩ := cycle_ok_inv h
  rw [updateTimers_memory]
  generalize hgen : ({ s with opcode := nextWord s, pc := s.pc + 2 } : Chip8) = t at ht
  have hm : t.memory = s.memory := by rw [← hgen]
  have hi : t.index = s.index := by rw [← hgen]
  have ho : t.opcode = nextWord s := by rw [← hgen]
  rw [← hm]
  intro a ha1 ha2
  rcases table_effect ht with hs | hs | hs | hs | hs | ⟨h1, h2, hs⟩ | ⟨h1, h2, hs⟩
  · rw [hs.2.2.2.1]
  · rw [hs]
    rfl
  · rw [(op_00EE_ok hs).2.2.2.1]
  · rw [(op_2nnn_ok hs).2.2.2.1]
  · rw [(op_Dxyn_sameButVideoVF hs).2.2.2.2.2.2.2.1]
  · rw [ho] at h1 h2
    have hout := hsafe.1 ⟨h1, h2⟩
    exact (op_Fx33_ok hs).2.2.2 a (by rw [hi]; omega)
  · rw [ho] at h1 h2
    have hout := hsafe.2 ⟨h1, h2⟩
    have hx : Vx t = nextWord s / 256 % 16 := by rw [Vx_eq, ho]
    exact (op_Fx55_ok hs).2.2.2 a (by rw [hi, hx]; omega)

/-- A run of `n` cycles none of which is a store into the font region leaves the region
as it was. -/
theorem cycles_font_kept (n : Nat) (s s' : Chip8) (hrun : cycles n s = .ok s')
    (hsafe : ∀ m t, m < n → cycles m s = .ok t → storesOutsideFont t) :
    ∀ a, 0x50 ≤ a → a ≤ 0x9F → s'.memory a = s.memory a := by
  induction n generalizing s with
  | zero =>
    simp only [cycles, Except.ok.injEq] at hrun
    rw [← hrun]
    exact fun _ _ _ => rfl
  | succ n ih =>
    simp only [cycles] at hrun
    cases h1 : cycle s with
    | error e =>
      rw [h1] at hrun
      cases hrun
    | ok s1 =>
      rw [h1] at hrun
      have hstep := cycle_font_kept h1 (hsafe 0 s (by omega) rfl)
      have hrest := ih s1 hrun (fun m t hm ht =>
        hsafe (m + 1) t (by omega) (by simp only [cycles, h1]; exact ht))
      intro a ha1 ha2
      rw [hrest a ha1 ha2, hstep a ha1 ha2]

/-- C17 (as amended): construction puts `fontset[k]` at `memory[0x50 + k]` for `k < 80`;
and a run of `n` successful cycles (one cycle for `n = 1`) none of which executes `Fx33`
or `Fx55` with a target range that meets `0x050..0x09F` leaves every byte of
`memory[0x050..0x09F]` unchanged, so that a font set present before the run is present
after it. -/
theorem font_set_kept (n : Nat) (s s' : Chip8) (hrun : cycles n s = .ok s')
    (hsafe : ∀ m t, m < n → cycles m s = .ok t → storesOutsideFont t) :
    (∀ (index opcode sp delayTimer soundTimer : Nat) (randGen : Nat → Nat) (k : Nat), k < 80 →
      (new index opcode sp delayTimer soundTimer randGen).memory (0x50 + k)
        = fontset.getD k 0) ∧
    (∀ a, 0x50 ≤ a → a ≤ 0x9F → s'.memory a = s.memory a) ∧
    ((∀ k, k < 80 → s.memory (0x50 + k) = fontset.getD k 0) →
      ∀ k, k < 80 → s'.memory (0x50 + k) = fontset.getD k 0) := by
  have hkept := cycles_font_kept n s s' hrun hsafe
  refine ⟨?_, hkept, fun hfont k hk => ?_⟩
  · intro index opcode sp delayTimer soundTimer randGen k hk
    have hin : FONT_START_ADDRESS ≤ 0x50 + k ∧ 0x50 + k < FONT_START_ADDRESS + FONTSET_SIZE := by
      simp only [FONT_START_ADDRESS, FONTSET_SIZE]
      omega
    simp only [new, hin, and_self, if_true, FONT_START_ADDRESS, Nat.add_sub_cancel_left]
  · rw [hkept (0x50 + k) (by omega) (by omega)]
    exact hfont k hk

/-- Witness for `font_set_kept`: the first cycle of a fresh machine loaded with the
program `60 0A 12 02`. -/
theorem font_set_kept_witness :
    cycles 1 (loaded [0x60, 0x0A, 0x12, 0x02])
        = .ok (afterCycle (loaded [0x60, 0x0A, 0x12, 0x02])) ∧
      storesOutsideFont (loaded [0x60, 0x0A, 0x12, 0x02]) ∧
      ∀ k, k < 80 →
        (afterCycle (loaded [0x60, 0x0A, 0x12, 0x02])).memory (0x50 + k) = fontset.getD k 0 :=
  ⟨rfl, by decide,
    (font_set_kept 1 (loaded [0x60, 0x0A, 0x12, 0x02])
      (afterCycle (loaded [0x60, 0x0A, 0x12, 0x02])) rfl
      (fun m t hm ht => by
        have hm0 : m = 0 := by omega
        subst hm0
        simp only [cycles, Except.ok.injEq] at ht
        rw [← ht]
        decide)).2.2
      (fun k hk => by
        have hin : FONT_START_ADDRESS ≤ 0x50 + k ∧
            0x50 + k < FONT_START_ADDRESS + FONTSET_SIZE := by
          simp only [FONT_START_ADDRESS, FONTSET_SIZE]
          omega
        have hne0 : 0x50 + k ≠ 0x200 := by omega
        have hne1 : 0x50 + k ≠ 0x201 := by omega
        have hne2 : 0x50 + k ≠ 0x202 := by omega
        have hne3 : 0x50 + k ≠ 0x203 := by omega
        show Function.update (Function.update (Function.update (Function.update
          (new 0 0 0 0 0 (fun _ => 0)).memory _ _) _ _) _ _) _ _ (0x50 + k) = _
        simp only [START_ADDRESS, Nat.add_zero, Function.update_noteq hne0,
          Function.update_noteq hne1, Function.update_noteq hne2, Function.update_noteq hne3,
          new, hin, and_self, if_true, FONT_START_ADDRESS, Nat.add_sub_cancel_left])⟩

/-- C17 (counterexample): a fresh machine loaded with the program `A0 50 F0 33` (set
index to `0x050`, then store the digits of `V0 = 0` there) runs two cycles, after which
`memory[0x50]` holds 0 instead of the font byte `0xF0` it held before. -/
theorem font_overwritten_counterexample :
    ∃ t, cycles 2 (loaded [0xA0, 0x50, 0xF0, 0x33]) = .ok t ∧
      (loaded [0xA0, 0x50, 0xF0, 0x33]).memory 0x50 = 0xF0 ∧ fontset.getD 0 0 = 0xF0 ∧
      t.memory 0x50 = 0 :=
  ⟨_, rfl, by decide, by decide, by decide⟩

/-! ## Drawing at the edges of the screen -/

/-- C18 (the code at the failing input): with `V0 = 63`, `V1 = 31` and the one-row
sprite `0xFF` (index 0, so `index + N ≤ 4096`), `op_Dxyn` reaches column 1 of the sprite
at cell `64 + 31 * 64 = 2048`, past the last cell 2047 of the framebuffer. -/
theorem op_Dxyn_corner_out_of_bounds :
    (sampleDrawFF regsCorner).index + (sampleDrawFF regsCorner).opcode % 16 ≤ 4096 ∧
      (sampleDrawFF regsCorner).registers (Vx (sampleDrawFF regsCorner)) = 63 ∧
      (sampleDrawFF regsCorner).registers (Vy (sampleDrawFF regsCorner)) = 31 ∧
      op_Dxyn (sampleDrawFF regsCorner) = .error (.videoOutOfBounds 2048) :=
  ⟨by decide, by decide, by decide, rfl⟩

/-- C19 (the code at the failing input): with `V0 = 60`, `V1 = 0` and the one-row
sprite `0xFF`, so that `yPos + N = 1 ≤ 32` and sprite row 0 belongs to display row 0
(cells `0..63`), `op_Dxyn` succeeds and turns on cells 60..63 of row 0 and cells 64..67,
which are columns 0..3 of display row 1. -/
theorem op_Dxyn_right_edge_spills :
    (sampleDrawFF regsRightEdge).registers (Vy (sampleDrawFF regsRightEdge)) % 32
        + (sampleDrawFF regsRightEdge).opcode % 16 ≤ 32 ∧
      ∃ t, op_Dxyn (sampleDrawFF regsRightEdge) = .ok t ∧
        (sampleDrawFF regsRightEdge).video 64 = 0 ∧ t.video 63 = 0xFFFFFFFF ∧
        t.video 64 = 0xFFFFFFFF ∧ t.video 67 = 0xFFFFFFFF ∧ t.video 0 = 0 :=
  ⟨by decide, _, rfl, by decide, by decide, by decide, by decide, by decide⟩

/-! ## Drawing twice -/

theorem xor_mask_twice (x : Nat) (hx : x < 2 ^ 32) :
    ((x ^^^ 0xFFFFFFFF) % 2 ^ 32 ^^^ 0xFFFFFFFF) % 2 ^ 32 = x := by
  have h1 : x ^^^ 0xFFFFFFFF < 2 ^ 32 := Nat.xor_lt_two_pow hx (by decide)
  rw [Nat.mod_eq_of_lt h1, Nat.xor_assoc, Nat.xor_self, Nat.xor_zero, Nat.mod_eq_of_lt hx]

/-- Under the placement conditions the draw handler succeeds and establishes the loop
invariant for all `N` rows. -/
theorem op_Dxyn_inv (s : Chip8) (N xPos yPos : Nat) (hN : N = s.opcode % 16)
    (hxP : xPos = s.registers (Vx s) % 64) (hyP : yPos = s.registers (Vy s) % 32)
    (hm : s.index + N ≤ 4096) (hx : xPos ≤ 56) (hy : yPos + N ≤ 32) :
    ∃ s', op_Dxyn s = .ok s' ∧ DrawInv xPos yPos s (fun j i => j < N ∧ i < 8) s' := by
  have hinit : DrawInv xPos yPos s (fun j i => j < 0 ∧ i < 8) (setRegister s 15 0) := by
    refine ⟨?_, fun _ _ => rfl, ?_, fun _ => ?_, rfl, rfl⟩
    · rintro p ⟨j, i, ⟨h, _⟩, _⟩
      omega
    · rintro ⟨j, i, ⟨h, _⟩, _⟩
      omega
    · simp only [setRegister, Function.update_same]
  obtain ⟨s', h', hinv⟩ := drawRow_loop N hx hy hm hinit N (le_refl N)
  have hh : (s.opcode &&& 0x000F) % 256 = N := by
    rw [mask_n, hN]
    omega
  have hxx : (s.registers (Vx s) % VIDEO_WIDTH) % 256 = xPos := by
    rw [hxP]
    simp only [VIDEO_WIDTH]
    omega
  have hyy : (s.registers (Vy s) % VIDEO_HEIGHT) % 256 = yPos := by
    rw [hyP]
    simp only [VIDEO_HEIGHT]
    omega
  exact ⟨s', by simp only [op_Dxyn, hh, hxx, hyy]; exact h', hinv⟩

/-- C20: for a draw word with X and Y other than 15, height `N`, `index + N ≤ 4096`,
`xPos ≤ 56` and `yPos + N ≤ 32`, on any framebuffer of 32-bit cells, two executions of
`op_Dxyn` in a row succeed and leave each of the 2048 cells at its value before the first
draw, and leave memory, index and registers `0..14` unchanged. -/
theorem op_Dxyn_twice (s : Chip8) (N xPos yPos : Nat) (hN : N = s.opcode % 16)
    (hxP : xPos = s.registers (Vx s) % 64) (hyP : yPos = s.registers (Vy s) % 32)
    (hX : Vx s ≠ 15) (hY : Vy s ≠ 15) (hvid : ∀ p, p < 2048 → s.video p < 2 ^ 32)
    (hm : s.index + N ≤ 4096) (hx : xPos ≤ 56) (hy : yPos + N ≤ 32) :
    ∃ s1 s2, op_Dxyn s = .ok s1 ∧ op_Dxyn s1 = .ok s2 ∧
      (∀ p, p < 2048 → s2.video p = s.video p) ∧ s2.memory = s.memory ∧
      s2.index = s.index ∧ ∀ k, k < 15 → s2.registers k = s.registers k := by
  obtain ⟨s1, h1, hcov1, hunc1, -, -, -, -⟩ := op_Dxyn_inv s N xPos yPos hN hxP hyP hm hx hy
  obtain ⟨fi, -, fo, -, -, -, -, fm, -, -, fr⟩ := op_Dxyn_sameButVideoVF h1
  have hVx : Vx s1 = Vx s := by simp only [Vx, fo]
  have hVy : Vy s1 = Vy s := by simp only [Vy, fo]
  obtain ⟨s2, h2, hcov2, hunc2, -, -, -, -⟩ := op_Dxyn_inv s1 N xPos yPos (by rw [fo]; exact hN)
    (by rw [hVx, fr _ hX]; exact hxP) (by rw [hVy, fr _ hY]; exact hyP)
    (by rw [fi]; exact hm) hx hy
  obtain ⟨gi, -, -, -, -, -, -, gm, -, -, gr⟩ := op_Dxyn_sameButVideoVF h2
  rw [fm, fi] at hcov2 hunc2
  refine ⟨s1, s2, h1, h2, fun p hp => ?_, gm.trans fm, gi.trans fi,
    fun k hk => (gr k (by omega)).trans (fr k (by omega))⟩
  by_cases hc : ∃ j i, (j < N ∧ i < 8) ∧ (s.memory (s.index + j)).testBit (7 - i) = true ∧
      p = (xPos + i) + (yPos + j) * VIDEO_WIDTH
  · rw [hcov2 p hc, hcov1 p hc]
    exact xor_mask_twice _ (hvid p hp)
  · rw [hunc2 p hc, hunc1 p hc]

/-- Witness for `op_Dxyn_twice`: the one-row sprite `0xF0` drawn twice at `(5, 5)`. -/
theorem op_Dxyn_twice_witness :
    ∃ s1 s2, op_Dxyn sampleDraw = .ok s1 ∧ op_Dxyn s1 = .ok s2 ∧
      (∀ p, p < 2048 → s2.video p = sampleDraw.video p) ∧ s2.memory = sampleDraw.memory ∧
      s2.index = sampleDraw.index ∧ ∀ k, k < 15 → s2.registers k = sampleDraw.registers k :=
  op_Dxyn_twice sampleDraw 1 5 5 (by decide) (by decide) (by decide) (by decide) (by decide)
    (fun _ _ => Nat.two_pow_pos 32) (by decide) (by decide) (by decide)

/-! ## Timer words through a cycle -/

theorem table_Fx15 (s : Chip8) (h1 : s.opcode / 4096 % 16 = 15) (h2 : s.opcode % 256 = 0x15) :
    table s = .ok (op_Fx15 s) := by
  rw [(table_of_top s).2.2.2.2.2.2.2.2.2.2.2.2.2.2.2 h1, tableF_eq]
  simp [h2]

theorem table_Fx18 (s : Chip8) (h1 : s.opcode / 4096 % 16 = 15) (h2 : s.opcode % 256 = 0x18) :
    table s = .ok (op_Fx18 s) := by
  rw [(table_of_top s).2.2.2.2.2.2.2.2.2.2.2.2.2.2.2 h1, tableF_eq]
  simp [h2]

theorem table_Fx07 (s : Chip8) (h1 : s.opcode / 4096 % 16 = 15) (h2 : s.opcode % 256 = 0x07) :
    table s = .ok (op_Fx07 s) := by
  rw [(table_of_top s).2.2.2.2.2.2.2.2.2.2.2.2.2.2.2 h1, tableF_eq]
  simp [h2]

/-- C21: when `pc + 1 < 4096` and the word at `pc` is `Fx15`, with `v` the value of
register X, one `cycle` succeeds and leaves the delay timer at `v - 1` if `v > 0` and at
0 if `v = 0`; likewise for `Fx18` and the sound timer; and when the word is `Fx07` one
`cycle` succeeds and leaves in register X the delay timer's value from before the cycle,
the timer itself being decayed afterwards. -/
theorem cycle_timer_words (s : Chip8) (X v : Nat) (hpc : s.pc + 1 < 4096) (hX : X < 16)
    (hhi : s.memory s.pc = 0xF0 + X) (hv : s.registers X = v) :
    (s.memory (s.pc + 1) = 0x15 →
      ∃ s', cycle s = .ok s' ∧ s'.delayTimer = if v > 0 then v - 1 else 0) ∧
    (s.memory (s.pc + 1) = 0x18 →
      ∃ s', cycle s = .ok s' ∧ s'.soundTimer = if v > 0 then v - 1 else 0) ∧
    (s.memory (s.pc + 1) = 0x07 →
      ∃ s', cycle s = .ok s' ∧ s'.registers X = s.delayTimer ∧
        s'.delayTimer = s.delayTimer - 1) := by
  subst hv
  have hw : ∀ lo, lo < 256 → s.memory (s.pc + 1) = lo →
      (s.memory s.pc <<< 8 ||| s.memory (s.pc + 1)) % 65536 = (0xF0 + X) * 256 + lo := by
    intro lo hlt hlo
    rw [hhi, hlo, fetch_word _ _ hlt]
    omega
  have hdec : ∀ n : Nat, n - 1 = if n > 0 then n - 1 else 0 := by
    intro n
    split_ifs <;> omega
  refine ⟨fun hlo => ?_, fun hlo => ?_, fun hlo => ?_⟩
  · rw [cycle_of_fetch s hpc, hw 0x15 (by omega) hlo,
      table_Fx15 _ (by simp only []; omega) (by simp only []; omega)]
    refine ⟨_, rfl, ?_⟩
    rw [updateTimers_delayTimer]
    have e : ((0xF0 + X) * 256 + 0x15) / 256 % 16 = X := by omega
    simp only [op_Fx15, Vx_eq, e]
    exact hdec _
  · rw [cycle_of_fetch s hpc, hw 0x18 (by omega) hlo,
      table_Fx18 _ (by simp only []; omega) (by simp only []; omega)]
    refine ⟨_, rfl, ?_⟩
    rw [updateTimers_soundTimer]
    have e : ((0xF0 + X) * 256 + 0x18) / 256 % 16 = X := by omega
    simp only [op_Fx18, Vx_eq, e]
    exact hdec _
  · rw [cycle_of_fetch s hpc, hw 0x07 (by omega) hlo,
      table_Fx07 _ (by simp only []; omega) (by simp only []; omega)]
    refine ⟨_, rfl, ?_, ?_⟩
    · rw [updateTimers_registers]
      have e : ((0xF0 + X) * 256 + 0x07) / 256 % 16 = X := by omega
      simp only [op_Fx07, setRegister, Vx_eq, e, Function.update_same]
    · rw [updateTimers_delayTimer]
      rfl

/-- Witness for `cycle_timer_words`: `V0 = 5` with the words `0xF015` and `0xF018` at
`pc = 0x200` (timers become 4), and the word `0xF007` with delay timer 3 (register 0
receives 3, the timer becomes 2). -/
theorem cycle_timer_words_witness :
    (∃ s', cycle (sampleAt 0x200 (wordAt200 0xF0 0x15) regsEqual 0 0) = .ok s' ∧
      s'.delayTimer = if 5 > 0 then 5 - 1 else 0) ∧
    (∃ s', cycle (sampleAt 0x200 (wordAt200 0xF0 0x18) regsEqual 0 0) = .ok s' ∧
      s'.soundTimer = if 5 > 0 then 5 - 1 else 0) ∧
    (∃ s', cycle (sampleAt 0x200 (wordAt200 0xF0 0x07) regsEqual 3 0) = .ok s' ∧
      s'.registers 0 = (sampleAt 0x200 (wordAt200 0xF0 0x07) regsEqual 3 0).delayTimer ∧
      s'.delayTimer = (sampleAt 0x200 (wordAt200 0xF0 0x07) regsEqual 3 0).delayTimer - 1) :=
  ⟨(cycle_timer_words (sampleAt 0x200 (wordAt200 0xF0 0x15) regsEqual 0 0) 0 5
      (by decide) (by decide) (by decide) (by decide)).1 (by decide),
    (cycle_timer_words (sampleAt 0x200 (wordAt200 0xF0 0x18) regsEqual 0 0) 0 5
      (by decide) (by decide) (by decide) (by decide)).2.1 (by decide),
    (cycle_timer_words (sampleAt 0x200 (wordAt200 0xF0 0x07) regsEqual 3 0) 0 5
      (by decide) (by decide) (by decide) (by decide)).2.2 (by decide)⟩

/-! ## The framebuffer holds only 0 and 0xFFFFFFFF -/

@[simp] theorem updateTimers_video (s : Chip8) : (updateTimers s).video = s.video := by
  simp only [updateTimers]; split_ifs <;> rfl

/-- One round of the inner draw loop keeps every cell at 0 or `0xFFFFFFFF`. -/
theorem drawPixel_sentinel {xPos yPos b j i : Nat} {s s' : Chip8}
    (h : drawPixel xPos yPos b j i s = .ok s')
    (hs : ∀ p, p < 2048 → s.video p = 0 ∨ s.video p = 0xFFFFFFFF) :
    ∀ p, p < 2048 → s'.video p = 0 ∨ s'.video p = 0xFFFFFFFF := by
  simp only [drawPixel] at h
  split_ifs at h with h1 h2 h3
  · simp only [Except.ok.injEq] at h
    rw [← h]
    intro p hp
    by_cases hpp : p = (xPos + i) + (yPos + j) * VIDEO_WIDTH
    · subst hpp
      simp only [setRegister, Function.update_same, h3]
      exact Or.inl (by decide)
    · simp only [setRegister, Function.update_noteq hpp]
      exact hs p hp
  · simp only [Except.ok.injEq] at h
    rw [← h]
    intro p hp
    by_cases hpp : p = (xPos + i) + (yPos + j) * VIDEO_WIDTH
    · subst hpp
      simp only [Function.update_same]
      rcases hs _ hp with h0 | h0
      · rw [h0]
        exact Or.inr (by decide)
      · exact absurd h0 h3
    · simp only [Function.update_noteq hpp]
      exact hs p hp
  · simp only [Except.ok.injEq] at h
    rw [← h]
    exact hs

theorem drawRow_sentinel {xPos yPos j : Nat} {s s' : Chip8}
    (h : drawRow xPos yPos j s = .ok s')
    (hs : ∀ p, p < 2048 → s.video p = 0 ∨ s.video p = 0xFFFFFFFF) :
    ∀ p, p < 2048 → s'.video p = 0 ∨ s'.video p = 0xFFFFFFFF := by
  simp only [drawRow] at h
  split at h
  · exact forLoop_ok_rel
      (R := fun t t' : Chip8 => (∀ p, p < 2048 → t.video p = 0 ∨ t.video p = 0xFFFFFFFF) →
        ∀ p, p < 2048 → t'.video p = 0 ∨ t'.video p = 0xFFFFFFFF)
      (fun _ ht => ht) (fun _ _ _ hab hbc ha => hbc (hab ha)) _
      (fun _ _ _ _ hb ht => drawPixel_sentinel hb ht) h hs
  · cases h

theorem op_Dxyn_sentinel {s s' : Chip8} (h : op_Dxyn s = .ok s')
    (hs : ∀ p, p < 2048 → s.video p = 0 ∨ s.video p = 0xFFFFFFFF) :
    ∀ p, p < 2048 → s'.video p = 0 ∨ s'.video p = 0xFFFFFFFF :=
  forLoop_ok_rel
    (R := fun t t' : Chip8 => (∀ p, p < 2048 → t.video p = 0 ∨ t.video p = 0xFFFFFFFF) →
      ∀ p, p < 2048 → t'.video p = 0 ∨ t'.video p = 0xFFFFFFFF)
    (fun _ ht => ht) (fun _ _ _ hab hbc ha => hbc (hab ha)) _
    (fun _ _ _ _ hb ht => drawRow_sentinel hb ht) h hs

/-- One successful cycle keeps every cell at 0 or `0xFFFFFFFF`. -/
theorem cycle_sentinel {s s' : Chip8} (h : cycle s = .ok s')
    (hs : ∀ p, p < 2048 → s.video p = 0 ∨ s.video p = 0xFFFFFFFF) :
    ∀ p, p < 2048 → s'.video p = 0 ∨ s'.video p = 0xFFFFFFFF := by
  obtain ⟨_, s3, ht, rfl⟩ := cycle_ok_inv h
  rw [updateTimers_video]
  generalize hgen : ({ s with opcode := nextWord s, pc := s.pc + 2 } : Chip8) = t at ht
  have hv : t.video = s.video := by rw [← hgen]
  rw [← hv] at hs
  rcases table_effect ht with hk | hk | hk | hk | hk | ⟨_, _, hk⟩ | ⟨_, _, hk⟩
  · rw [hk.1]
    exact hs
  · rw [hk]
    exact fun _ _ => Or.inl rfl
  · rw [(op_00EE_ok hk).2.2.2.2]
    exact hs
  · rw [(op_2nnn_ok hk).2.2.2.2]
    exact hs
  · exact op_Dxyn_sentinel hk hs
  · rw [(op_Fx33_ok hk).2.2.1]
    exact hs
  · rw [(op_Fx55_ok hk).2.2.1]
    exact hs

/-- A successful run of `n` cycles keeps every cell at 0 or `0xFFFFFFFF`. -/
theorem cycles_sentinel (n : Nat) (s s' : Chip8) (hrun : cycles n s = .ok s')
    (hs : ∀ p, p < 2048 → s.video p = 0 ∨ s.video p = 0xFFFFFFFF) :
    ∀ p, p < 2048 → s'.video p = 0 ∨ s'.video p = 0xFFFFFFFF := by
  induction n generalizing s with
  | zero =>
    simp only [cycles, Except.ok.injEq] at hrun
    rw [← hrun]
    exact hs
  | succ n ih =>
    simp only [cycles] at hrun
    cases h1 : cycle s with
    | error e =>
      rw [h1] at hrun
      cases hrun
    | ok s1 =>
      rw [h1] at hrun
      exact ih s1 hrun (cycle_sentinel h1 hs)

/-- Loading a ROM leaves the framebuffer alone. -/
theorem load_ROM_video {s s0 : Chip8} {file : Option (List Nat)}
    (h : load_ROM s file = .ok s0) : s0.video = s.video := by
  cases file with
  | none =>
    simp only [load_ROM, Except.ok.injEq] at h
    rw [← h]
  | some buffer =>
    simp only [load_ROM] at h
    refine forLoop_ok_rel (R := fun t t' : Chip8 => t'.video = t.video) (fun _ => rfl)
      (fun _ _ _ hab hbc => hbc.trans hab) _ (fun i _ t t' hb => ?_) h
    simp only [writeMemory] at hb
    split_ifs at hb
    simp only [Except.ok.injEq] at hb
    rw [← hb]

/-- C22: if every framebuffer cell is 0 or `0xFFFFFFFF`, then after any run of `n`
cycles that succeeds (one cycle for `n = 1`; success means that every array access was
in range and every selector mapped) every cell is again 0 or `0xFFFFFFFF`; the
constructor zeroes the framebuffer, so every state reached from a constructed machine,
with or without a loaded ROM, by successful cycles has this property. -/
theorem video_sentinel (n : Nat) (s s' : Chip8)
    (hs : ∀ p, p < 2048 → s.video p = 0 ∨ s.video p = 0xFFFFFFFF)
    (hrun : cycles n s = .ok s') :
    (∀ p, p < 2048 → s'.video p = 0 ∨ s'.video p = 0xFFFFFFFF) ∧
    (∀ (index opcode sp delayTimer soundTimer : Nat) (randGen : Nat → Nat) (p : Nat),
      (new index opcode sp delayTimer soundTimer randGen).video p = 0) ∧
    (∀ (index opcode sp delayTimer soundTimer : Nat) (randGen : Nat → Nat)
      (file : Option (List Nat)) (s0 t : Chip8) (m : Nat),
      load_ROM (new index opcode sp delayTimer soundTimer randGen) file = .ok s0 →
      cycles m s0 = .ok t → ∀ p, p < 2048 → t.video p = 0 ∨ t.video p = 0xFFFFFFFF) := by
  refine ⟨cycles_sentinel n s s' hrun hs, fun _ _ _ _ _ _ _ => rfl, ?_⟩
  intro index opcode sp delayTimer soundTimer randGen file s0 t m hload hm
  refine cycles_sentinel m s0 t hm (fun p _ => Or.inl ?_)
  rw [load_ROM_video hload]
  rfl

/-- A cycle that succeeds ends in `afterCycle`. -/
theorem cycle_eq_afterCycle (s : Chip8) (h : (cycle s).isOk = true) :
    cycle s = .ok (afterCycle s) := by
  unfold afterCycle
  cases hc : cycle s with
  | ok t => rfl
  | error e =>
    rw [hc] at h
    cases h

/-- Two cycles that succeed end in `afterCycle` applied twice. -/
theorem cycles_two_eq (s : Chip8) (h1 : (cycle s).isOk = true)
    (h2 : (cycle (afterCycle s)).isOk = true) :
    cycles 2 s = .ok (afterCycle (afterCycle s)) := by
  simp only [cycles, cycle_eq_afterCycle s h1, cycle_eq_afterCycle (afterCycle s) h2]

/-- Witness for `video_sentinel`: a fresh machine loaded with the program `A0 50 D0 15`
(set index to the glyph of 0, draw its five rows at `(0, 0)`), run for two cycles. -/
theorem video_sentinel_witness :
    (∀ p, p < 2048 → (loaded [0xA0, 0x50, 0xD0, 0x15]).video p = 0 ∨
      (loaded [0xA0, 0x50, 0xD0, 0x15]).video p = 0xFFFFFFFF) ∧
    cycles 2 (loaded [0xA0, 0x50, 0xD0, 0x15])
      = .ok (afterCycle (afterCycle (loaded [0xA0, 0x50, 0xD0, 0x15]))) ∧
    (afterCycle (afterCycle (loaded [0xA0, 0x50, 0xD0, 0x15]))).video 0 = 0xFFFFFFFF ∧
    ∀ p, p < 2048 →
      (afterCycle (afterCycle (loaded [0xA0, 0x50, 0xD0, 0x15]))).video p = 0 ∨
      (afterCycle (afterCycle (loaded [0xA0, 0x50, 0xD0, 0x15]))).video p = 0xFFFFFFFF :=
  ⟨fun _ _ => Or.inl rfl,
    cycles_two_eq (loaded [0xA0, 0x50, 0xD0, 0x15]) (by decide) (by decide), by decide,
    (video_sentinel 2 (loaded [0xA0, 0x50, 0xD0, 0x15])
      (afterCycle (afterCycle (loaded [0xA0, 0x50, 0xD0, 0x15])))
      (fun _ _ => Or.inl rfl)
      (cycles_two_eq (loaded [0xA0, 0x50, 0xD0, 0x15]) (by decide) (by decide))).1⟩

end Chip8
